import Mathlib

/-! Verification of the resilient-state-sync-udp mesh key/value store.

The definitions below are a shallow embedding of the Python sources:
crdt_state.py (the LWW CRDT store) and reliable_udp.py (the framed
reliable-datagram transport).  Python dicts are embedded as functions
returning Option (Python dict equality is extensional, so a dict is
identified with its lookup function); the remote snapshots that the code
iterates over with .items() are embedded as association lists whose keys
are assumed distinct (a dict never repeats a key); wall-clock timestamps
(Python floats) are embedded as rationals; node ids are strings compared
lexicographically by code points, exactly as Python compares str values.
A source triple (value, timestamp, node_id) is embedded as the nested
pair (value, (timestamp, node_id)).
-/

/-- Kernel-reducible decidability for the lexicographic order on String
(the order Python uses for str comparison); the relation itself is the
standard one, so all order lemmas still apply. -/
instance (priority := 2000) strDecLt (s t : String) : Decidable (s < t) :=
  decidable_of_iff (s.data < t.data) (by rw [String.lt_iff_toList_lt]; rfl)

namespace MeshSync

/-- Timestamps: readings of time.time(), embedded as rationals. -/
abbrev Ts := ℚ

/-- A (timestamp, node_id) pair, the comparison key of the LWW merge. -/
abbrev Stamp := Ts × String

/-- crdt_state.py lines 82, 91, 104, 115: the comparison
ts1 > ts2 or (ts1 == ts2 and nid1 > nid2), i.e. strict lexicographic
dominance of (ts1, nid1) over (ts2, nid2). -/
def domGt (p q : Stamp) : Prop :=
  q.1 < p.1 ∨ (p.1 = q.1 ∧ q.2 < p.2)

instance (p q : Stamp) : Decidable (domGt p q) := by
  unfold domGt; infer_instance

/-- The state of crdt_state.py's CRDTState: the LWW register map
(key -> (value, (ts, origin))), the vector clock (a defaultdict(int),
hence a total function with default 0), the tombstone map
(key -> (ts, origin)) and the version counter. -/
@[ext]
structure CRDTState where
  node_id : String
  data : String → Option (String × Stamp)
  vector_clock : String → Nat
  tombstones : String → Option Stamp
  version : Nat

/-- CRDTState.__init__: empty maps, version 0. -/
def initState (nid : String) : CRDTState :=
  { node_id := nid
    data := fun _ => none
    vector_clock := fun _ => 0
    tombstones := fun _ => none
    version := 0 }

/-- CRDTState.set (crdt_state.py lines 35-45): write the register, bump
own vector-clock slot and the version, and drop any tombstone for the
key.  The wall-clock reading is passed explicitly. -/
def CRDTState.set (st : CRDTState) (key value : String) (ts : Ts) : CRDTState :=
  { st with
    data := fun k => if k = key then some (value, ts, st.node_id) else st.data k
    vector_clock := fun n => if n = st.node_id then st.vector_clock n + 1 else st.vector_clock n
    version := st.version + 1
    tombstones := fun k => if k = key then none else st.tombstones k }

/-- CRDTState.get (crdt_state.py lines 47-54): None if the key has a
tombstone, else the register value if present, else None. -/
def CRDTState.get (st : CRDTState) (key : String) : Option String :=
  match st.tombstones key with
  | some _ => none
  | none =>
    match st.data key with
    | some x => some x.1
    | none => none

/-- CRDTState.delete (crdt_state.py lines 56-62): write a tombstone, bump
own vector-clock slot and the version.  The register is not removed. -/
def CRDTState.delete (st : CRDTState) (key : String) (ts : Ts) : CRDTState :=
  { st with
    tombstones := fun k => if k = key then some (ts, st.node_id) else st.tombstones k
    vector_clock := fun n => if n = st.node_id then st.vector_clock n + 1 else st.vector_clock n
    version := st.version + 1 }

/-- The should_update predicate of the data loop (crdt_state.py lines
75-92): true iff the key is absent locally or the remote stamp strictly
dominates the local one, and no local tombstone for the key (strictly)
dominates the remote stamp. -/
def dataShould (ld : Option (String × Stamp)) (lt : Option Stamp) (p : Stamp) : Prop :=
  (∀ x ∈ ld, domGt p x.2) ∧ (∀ q ∈ lt, ¬ domGt q p)

instance (ld : Option (String × Stamp)) (lt : Option Stamp) (p : Stamp) :
    Decidable (dataShould ld lt p) := by
  unfold dataShould; infer_instance

/-- The should_update predicate of the tombstone loop (crdt_state.py
lines 100-107): true iff the key has no local tombstone or the remote
stamp strictly dominates the local tombstone's. -/
def tombShould (lt : Option Stamp) (p : Stamp) : Prop :=
  ∀ q ∈ lt, domGt p q

instance (lt : Option Stamp) (p : Stamp) : Decidable (tombShould lt p) := by
  unfold tombShould; infer_instance

/-- One iteration of the data-merge loop (crdt_state.py lines 74-96),
threading (state, modified). -/
def mergeDataStep (acc : CRDTState × Bool) (e : String × String × Stamp) :
    CRDTState × Bool :=
  let st := acc.1
  if dataShould (st.data e.1) (st.tombstones e.1) e.2.2 then
    ({ st with data := fun k => if k = e.1 then some e.2 else st.data k }, true)
  else acc

/-- One iteration of the tombstone-merge loop (crdt_state.py lines
99-117): overwrite the tombstone when it should update, and additionally
delete the register if the new tombstone strictly dominates it. -/
def mergeTombStep (acc : CRDTState × Bool) (e : String × Stamp) : CRDTState × Bool :=
  let st := acc.1
  if tombShould (st.tombstones e.1) e.2 then
    let st1 := { st with tombstones := fun k => if k = e.1 then some e.2 else st.tombstones k }
    let st2 :=
      match st1.data e.1 with
      | some x =>
        if domGt e.2 x.2 then
          { st1 with data := fun k => if k = e.1 then none else st1.data k }
        else st1
      | none => st1
    (st2, true)
  else acc

/-- One iteration of the vector-clock merge (crdt_state.py lines
120-122): pointwise maximum, written as the source's conditional
assignment. -/
def vcStep (st : CRDTState) (e : String × Nat) : CRDTState :=
  if st.vector_clock e.1 < e.2 then
    { st with vector_clock := fun n => if n = e.1 then e.2 else st.vector_clock n }
  else st

/-- CRDTState.merge_remote_state (crdt_state.py lines 64-127): merge the
data entries, then the tombstones, then the vector clock; bump the
version iff anything was modified, and return the modified flag. -/
def mergeRemoteState (st : CRDTState) (remote_data : List (String × String × Stamp))
    (remote_tombstones : List (String × Stamp))
    (remote_vector_clock : List (String × Nat)) : CRDTState × Bool :=
  let a := remote_data.foldl mergeDataStep (st, false)
  let b := remote_tombstones.foldl mergeTombStep a
  let c := remote_vector_clock.foldl vcStep b.1
  if b.2 then ({ c with version := c.version + 1 }, true) else (c, false)

/-- Lookup in an association list, mirroring a Python dict read. -/
def lookupKey {β : Type} (l : List (String × β)) (k : String) : Option β :=
  match l with
  | [] => none
  | (k', v) :: t => if k' = k then some v else lookupKey t k

/-- The keys of an association list are distinct (always true of the
.items() view of a Python dict). -/
def keysND {β : Type} (l : List (String × β)) : Prop :=
  (l.map Prod.fst).Nodup

instance {β : Type} (l : List (String × β)) : Decidable (keysND l) := by
  unfold keysND; infer_instance

/-- Per-key effect of the data-merge loop: the register after the loop,
as a function of the local register, the local tombstone, and the remote
register entry for that key. -/
def dataMergeAt (ld : Option (String × Stamp)) (lt : Option Stamp)
    (r : Option (String × Stamp)) : Option (String × Stamp) :=
  match r with
  | none => ld
  | some x => if dataShould ld lt x.2 then some x else ld

/-- Per-key effect of the tombstone-merge loop on the tombstone map. -/
def tombMergeAt (lt : Option Stamp) (r : Option Stamp) : Option Stamp :=
  match r with
  | none => lt
  | some p => if tombShould lt p then some p else lt

/-- Per-key effect of the tombstone-merge loop on the register map: the
register is deleted when the remote tombstone is applied and strictly
dominates it. -/
def tombKillAt (ld : Option (String × Stamp)) (lt : Option Stamp)
    (r : Option Stamp) : Option (String × Stamp) :=
  match r with
  | none => ld
  | some p =>
    if tombShould lt p then
      match ld with
      | some x => if domGt p x.2 then none else ld
      | none => ld
    else ld

/-- Per-key effect of the vector-clock merge: pointwise maximum. -/
def vcMergeAt (v : Nat) (r : Option Nat) : Nat :=
  match r with
  | none => v
  | some s => max v s

/-- Scenario 2 of the spec, step 1, at node B: merge A's register for
"k" ("v1" at t=1). -/
def c1B1 : CRDTState :=
  (mergeRemoteState (initState "B") [("k", "v1", (1 : ℚ), "A")] [] [("A", 1)]).1

/-- Scenario 2, step 2: merge A's tombstone for "k" at t=2. -/
def c1B2 : CRDTState :=
  (mergeRemoteState c1B1 [] [("k", (2 : ℚ), "A")] [("A", 2)]).1

/-- Scenario 2, step 3: merge A's fresh register "v2" for "k" at t=3
(A's own tombstone was removed by its local set, so none is sent). -/
def c1B3 : CRDTState :=
  (mergeRemoteState c1B2 [("k", "v2", (3 : ℚ), "A")] [] [("A", 3)]).1

/-- A node-B state holding only a tombstone ("k", (2, "A")), obtained by
merging a remote tombstone. -/
def c4local : CRDTState :=
  (mergeRemoteState (initState "B") [] [("k", (2 : ℚ), "A")] []).1

/-- A node-B state holding only a tombstone ("k", (2, "A")), used to
exercise tombstone retention under a dominating remote register. -/
def c5local : CRDTState :=
  (mergeRemoteState (initState "B") [] [("k", (2 : ℚ), "A")] []).1

/-- The operations that mutate a CRDTState: local set, local delete, and
merge of a remote snapshot. -/
inductive LocalOp where
  | setOp (k v : String) (ts : Ts)
  | delOp (k : String) (ts : Ts)
  | mergeOp (rd : List (String × String × Stamp)) (rt : List (String × Stamp))
      (rv : List (String × Nat))

/-- Apply one operation to a state. -/
def applyOp (st : CRDTState) : LocalOp → CRDTState
  | .setOp k v ts => st.set k v ts
  | .delOp k ts => st.delete k ts
  | .mergeOp rd rt rv => (mergeRemoteState st rd rt rv).1

/-- Apply a sequence of operations to a state. -/
def applyOps (st : CRDTState) (ops : List LocalOp) : CRDTState :=
  ops.foldl applyOp st

/-- Register survival under one applied tombstone stamp: delete the
register iff the stamp strictly dominates it. -/
def killReg (r : Option (String × Stamp)) (q : Stamp) : Option (String × Stamp) :=
  match r with
  | some x => if domGt q x.2 then none else some x
  | none => none

/-- Per-key data-phase of a merge as an action on the (register,
tombstone) cell. -/
def appD (c : Option (String × Stamp) × Option Stamp) (d : Option (String × Stamp)) :
    Option (String × Stamp) × Option Stamp :=
  (dataMergeAt c.1 c.2 d, c.2)

/-- Per-key tombstone-phase of a merge as an action on the (register,
tombstone) cell. -/
def appT (c : Option (String × Stamp) × Option Stamp) (t : Option Stamp) :
    Option (String × Stamp) × Option Stamp :=
  (tombKillAt c.1 c.2 t, tombMergeAt c.2 t)

/-- Two successive merges of single-key data snapshots into a fresh node,
used to exhibit order dependence of merge. -/
def c3mergeAB (sa sb : List (String × String × Stamp)) : CRDTState :=
  (mergeRemoteState (mergeRemoteState (initState "N") sa [] []).1 sb [] []).1

/-- A peer address (host, port), as used to key the per-peer received
set in reliable_udp.py. -/
abbrev Addr := String × Nat

namespace PacketType

/-- reliable_udp.py lines 23-30: protocol packet types. -/
def DATA : Nat := 0

def ACK : Nat := 1

def SYNC_REQUEST : Nat := 2

def SYNC_RESPONSE : Nat := 3

def HEARTBEAT : Nat := 4

def DISCOVERY : Nat := 5

end PacketType

/-- A deserialized inbound packet as seen by _receive_loop; ack_field
models payload.get('ack'), the only payload field the loop reads. -/
structure RPacket where
  packet_type : Nat
  seq_num : Nat
  ack_field : Option Nat

/-- The receive-path state of a ReliableUDPSocket: the per-peer received
sequence sets and the key set of the in-flight (pending-ACK) table, the
only part of that table the receive path consults. -/
structure RecvState where
  received_seqs : Addr → Nat → Bool
  pending_acks : Nat → Bool

/-- Externally visible effects of one receive-loop iteration: an ACK sent
back to a source, or a handler dispatch (recording the triggering
packet's source and sequence number). -/
inductive RAction where
  | sendAck (addr : Addr) (seq : Nat)
  | dispatch (addr : Addr) (seq : Nat) (packet_type : Nat)

/-- One iteration of _receive_loop (reliable_udp.py lines 209-238) for a
datagram that deserialized successfully: ACKs are consumed against the
in-flight table and never dispatched; a duplicate (source, seq) is
re-ACKed and not dispatched; otherwise the packet is recorded, ACKed and
dispatched to the registered handler if any. -/
def receiveStep (handlers : Nat → Bool) (st : RecvState) (p : RPacket) (addr : Addr) :
    RecvState × List RAction :=
  if p.packet_type = PacketType.ACK then
    match p.ack_field with
    | some a =>
      if st.pending_acks a then
        ({ st with pending_acks := fun s => if s = a then false else st.pending_acks s }, [])
      else (st, [])
    | none => (st, [])
  else if st.received_seqs addr p.seq_num then
    (st, [RAction.sendAck addr p.seq_num])
  else
    ({ st with received_seqs := fun a s =>
        if a = addr ∧ s = p.seq_num then true else st.received_seqs a s },
      RAction.sendAck addr p.seq_num ::
        (if handlers p.packet_type then [RAction.dispatch addr p.seq_num p.packet_type]
         else []))

/-- Fold step threading state and accumulated actions over a sequence of
inbound datagrams. -/
def traceStep (handlers : Nat → Bool) (acc : RecvState × List RAction)
    (inp : RPacket × Addr) : RecvState × List RAction :=
  let r := receiveStep handlers acc.1 inp.1 inp.2
  (r.1, acc.2 ++ r.2)

/-- Run the receive loop over a list of inbound datagrams. -/
def receiveTrace (handlers : Nat → Bool) (st : RecvState)
    (inps : List (RPacket × Addr)) : RecvState × List RAction :=
  inps.foldl (traceStep handlers) (st, [])

/-- Count the handler dispatches triggered by datagrams with the given
source address and sequence number. -/
def countDispatch : List RAction → Addr → Nat → Nat
  | [], _, _ => 0
  | RAction.dispatch a s _ :: rest, addr, seq =>
    (if a = addr ∧ s = seq then 1 else 0) + countDispatch rest addr seq
  | RAction.sendAck _ _ :: rest, addr, seq => countDispatch rest addr seq

/-- reliable_udp.py line 139. -/
def MAX_RETRIES : Nat := 5

/-- reliable_udp.py line 140: 0.5 seconds. -/
def INITIAL_TIMEOUT : ℚ := 1 / 2

/-- reliable_udp.py line 141: 8 seconds. -/
def MAX_TIMEOUT : ℚ := 8

/-- reliable_udp.py line 267: the effective timeout of an in-flight entry
with the given retry count. -/
def timeoutFor (retries : Nat) : ℚ :=
  min (INITIAL_TIMEOUT * 2 ^ retries) MAX_TIMEOUT

/-- Lookup in a sequence-number-keyed association list. -/
def lookupSeq {β : Type} (l : List (Nat × β)) (k : Nat) : Option β :=
  match l with
  | [] => none
  | (k2, v) :: t => if k2 = k then some v else lookupSeq t k

/-- Distinct keys in a sequence-number-keyed association list. -/
def seqsND {β : Type} (l : List (Nat × β)) : Prop :=
  (l.map Prod.fst).Nodup

instance {β : Type} (l : List (Nat × β)) : Decidable (seqsND l) := by
  unfold seqsND; infer_instance

/-- Overwrite the value stored under an existing key (Python dict
assignment under a presence guard). -/
def overwriteSeq {β : Type} (l : List (Nat × β)) (k : Nat) (v : β) : List (Nat × β) :=
  l.map (fun kv => if kv.1 = k then (k, v) else kv)

/-- An in-flight table entry: seq -> (packet, send_time, retries, addr),
with the packet kept abstract. -/
abbrev Pend (P : Type) := List (Nat × P × ℚ × Nat × Addr)

/-- The table rewrite performed for one retried entry (reliable_udp.py
lines 283-285): if the seq is still in the table, store the same packet
with retries+1 and the re-send time now2. -/
def retryUpdStep {P : Type} (now2 : ℚ) (tab : Pend P) (e : Nat × P × ℚ × Nat × Addr) :
    Pend P :=
  if (lookupSeq tab e.1).isSome then
    overwriteSeq tab e.1 (e.2.1, now2, e.2.2.2.1 + 1, e.2.2.2.2)
  else tab

/-- One pass of _retry_loop's scan (reliable_udp.py lines 262-285): walk
the table, deleting timed-out entries that reached MAX_RETRIES and
collecting the other timed-out ones; then resend each collected entry
(same packet, same seq) and rewrite it with retries+1 and the re-send
time.  now is the scan's clock reading, now2 the re-send clock reading. -/
def retryPass {P : Type} (now now2 : ℚ) (pending : Pend P) :
    Pend P × List (Nat × P × Addr) :=
  let survivors := pending.filter (fun e =>
    ! decide (now - e.2.2.1 > timeoutFor e.2.2.2.1 ∧ MAX_RETRIES ≤ e.2.2.2.1))
  let to_retry := pending.filter (fun e =>
    decide (now - e.2.2.1 > timeoutFor e.2.2.2.1 ∧ e.2.2.2.1 < MAX_RETRIES))
  (to_retry.foldl (retryUpdStep now2) survivors,
    to_retry.map (fun e => (e.1, e.2.1, e.2.2.2.2)))

/-- reliable_udp.py line 39. -/
def WIRE_VERSION : Nat := 1

/-- reliable_udp.py line 40. -/
def HEADER_SIZE : Nat := 10

/-- reliable_udp.py line 41: UDP maximum minus the header. -/
def MAX_PAYLOAD_SIZE : Nat := 65507 - HEADER_SIZE

/-- Big-endian bytes of a 32-bit unsigned integer (struct.pack "!I"). -/
def u32be (n : Nat) : List Nat :=
  [n / 16777216 % 256, n / 65536 % 256, n / 256 % 256, n % 256]

/-- Recompose a 32-bit big-endian integer (struct.unpack "!I"). -/
def fromBE4 (a b c d : Nat) : Nat :=
  ((a * 256 + b) * 256 + c) * 256 + d

/-- A ReliableUDPPacket over an abstract payload type (the timestamp
field is receiver-local and omitted). -/
structure SPacket (α : Type) where
  packet_type : Nat
  seq_num : Nat
  payload : α
  deriving DecidableEq

/-- ReliableUDPPacket.serialize (reliable_udp.py lines 49-68) over an
abstract JSON encoder and checksum: encode the payload, truncate it to
MAX_PAYLOAD_SIZE if it is too large, checksum the (possibly truncated)
payload bytes, and prepend the header version, type, seq and checksum. -/
def serialize {α : Type} (checksum : List Nat → Nat) (jsonDumps : α → List Nat)
    (p : SPacket α) : List Nat :=
  let payload_bytes := jsonDumps p.payload
  let payload_bytes :=
    if MAX_PAYLOAD_SIZE < payload_bytes.length then payload_bytes.take MAX_PAYLOAD_SIZE
    else payload_bytes
  let chk := checksum payload_bytes
  WIRE_VERSION :: p.packet_type :: (u32be p.seq_num ++ u32be chk ++ payload_bytes)

/-- ReliableUDPPacket.deserialize (reliable_udp.py lines 70-99): drop if
shorter than the header, on version mismatch, on checksum mismatch, or if
JSON decoding fails (the except branch); otherwise rebuild the packet. -/
def deserialize {α : Type} (checksum : List Nat → Nat)
    (jsonLoads : List Nat → Option α) (data : List Nat) : Option (SPacket α) :=
  if data.length < HEADER_SIZE then none
  else
    match data with
    | v :: t :: s1 :: s2 :: s3 :: s4 :: c1 :: c2 :: c3 :: c4 :: rest =>
      if v ≠ WIRE_VERSION then none
      else if checksum rest ≠ fromBE4 c1 c2 c3 c4 then none
      else
        match jsonLoads rest with
        | some payload => some ⟨t, fromBE4 s1 s2 s3 s4, payload⟩
        | none => none
    | _ => none

/-- The oversized JSON encoding used to exercise truncation: one byte
more than MAX_PAYLOAD_SIZE. -/
def c9dumps : Nat → List Nat := fun _ => List.replicate 65498 97

/-- A length checksum, standing in for the truncated-MD5 digest. -/
def c9sum : List Nat → Nat := fun l => l.length

theorem domGt_irrefl (p : Stamp) : ¬ domGt p p := by
  rintro (h | ⟨h, h'⟩)
  · exact lt_irrefl _ h
  · exact lt_irrefl _ h'

theorem domGt_trans {p q r : Stamp} (h1 : domGt p q) (h2 : domGt q r) : domGt p r := by
  rcases h1 with h1 | ⟨h1, h1'⟩ <;> rcases h2 with h2 | ⟨h2, h2'⟩
  · exact Or.inl (lt_trans h2 h1)
  · exact Or.inl (h2 ▸ h1)
  · exact Or.inl (h1 ▸ h2)
  · exact Or.inr ⟨h1.trans h2, lt_trans h2' h1'⟩

theorem domGt_trichot (p q : Stamp) : domGt p q ∨ p = q ∨ domGt q p := by
  rcases lt_trichotomy q.1 p.1 with h | h | h
  · exact Or.inl (Or.inl h)
  · rcases lt_trichotomy q.2 p.2 with h2 | h2 | h2
    · exact Or.inl (Or.inr ⟨h.symm, h2⟩)
    · exact Or.inr (Or.inl (Prod.ext h.symm h2.symm))
    · exact Or.inr (Or.inr (Or.inr ⟨h, h2⟩))
  · exact Or.inr (Or.inr (Or.inl h))

theorem domGt_asymm {p q : Stamp} (h : domGt p q) : ¬ domGt q p :=
  fun h2 => domGt_irrefl p (domGt_trans h h2)

theorem lookupKey_nil {β : Type} (k : String) : lookupKey ([] : List (String × β)) k = none :=
  rfl

theorem lookupKey_cons {β : Type} (k' : String) (v : β) (t : List (String × β)) (k : String) :
    lookupKey ((k', v) :: t) k = if k' = k then some v else lookupKey t k :=
  rfl

theorem lookupKey_not_mem {β : Type} {l : List (String × β)} {k : String}
    (h : k ∉ l.map Prod.fst) : lookupKey l k = none := by
  induction l with
  | nil => rfl
  | cons e t ih =>
    obtain ⟨k', v⟩ := e
    rw [List.map_cons, List.mem_cons, not_or] at h
    rw [lookupKey_cons, if_neg (fun hh => h.1 hh.symm), ih h.2]

theorem keysND_cons {β : Type} {e : String × β} {t : List (String × β)}
    (h : keysND (e :: t)) : e.1 ∉ t.map Prod.fst ∧ keysND t := by
  unfold keysND at *
  rw [List.map_cons, List.nodup_cons] at h
  exact h

/-- Characterization of the data-merge loop: all fields except data are
unchanged, data is updated pointwise by dataMergeAt, and the modified
flag records whether any entry was applied. -/
theorem dataLoop_spec :
    ∀ (rd : List (String × String × Stamp)) (st : CRDTState) (m : Bool), keysND rd →
      ((rd.foldl mergeDataStep (st, m)).1.node_id = st.node_id ∧
       (rd.foldl mergeDataStep (st, m)).1.tombstones = st.tombstones ∧
       (rd.foldl mergeDataStep (st, m)).1.vector_clock = st.vector_clock ∧
       (rd.foldl mergeDataStep (st, m)).1.version = st.version) ∧
      (∀ k, (rd.foldl mergeDataStep (st, m)).1.data k =
          dataMergeAt (st.data k) (st.tombstones k) (lookupKey rd k)) ∧
      ((rd.foldl mergeDataStep (st, m)).2 = true ↔
        m = true ∨ ∃ e ∈ rd, dataShould (st.data e.1) (st.tombstones e.1) e.2.2) := by
  intro rd
  induction rd with
  | nil =>
    intro st m _
    refine ⟨⟨rfl, rfl, rfl, rfl⟩, fun k => rfl, by simp⟩
  | cons e t ih =>
    obtain ⟨ek, ev⟩ := e
    intro st m h
    obtain ⟨hnm, ht⟩ := keysND_cons h
    rw [List.foldl_cons]
    by_cases hs : dataShould (st.data ek) (st.tombstones ek) ev.2
    · have hstep : mergeDataStep (st, m) (ek, ev) =
        ({ st with data := fun k => if k = ek then some ev else st.data k }, true) := by
        simp only [mergeDataStep]
        rw [if_pos hs]
      rw [hstep]
      obtain ⟨⟨f1, f2, f3, f4⟩, hdata, hmod⟩ :=
        ih { st with data := fun k => if k = ek then some ev else st.data k } true ht
      refine ⟨⟨f1, f2, f3, f4⟩, ?_, ?_⟩
      · intro k
        rw [hdata k]
        by_cases hk : k = ek
        · subst hk
          rw [lookupKey_not_mem hnm, lookupKey_cons, if_pos rfl]
          simp [dataMergeAt, hs]
        · rw [lookupKey_cons, if_neg (fun hh => hk hh.symm)]
          simp [hk]
      · rw [hmod]
        constructor
        · intro _
          exact Or.inr ⟨(ek, ev), List.mem_cons_self _ _, hs⟩
        · intro _
          exact Or.inl rfl
    · have hstep : mergeDataStep (st, m) (ek, ev) = (st, m) := by
        simp only [mergeDataStep]
        rw [if_neg hs]
      rw [hstep]
      obtain ⟨hfields, hdata, hmod⟩ := ih st m ht
      refine ⟨hfields, ?_, ?_⟩
      · intro k
        rw [hdata k]
        by_cases hk : k = ek
        · subst hk
          rw [lookupKey_not_mem hnm, lookupKey_cons, if_pos rfl]
          simp [dataMergeAt, hs]
        · rw [lookupKey_cons, if_neg (fun hh => hk hh.symm)]
      · rw [hmod]
        constructor
        · rintro (hm | ⟨h1, h2, h3⟩)
          · exact Or.inl hm
          · exact Or.inr ⟨h1, List.mem_cons_of_mem _ h2, h3⟩
        · rintro (hm | ⟨h1, h2, h3⟩)
          · exact Or.inl hm
          · rcases List.mem_cons.1 h2 with rfl | h2
            · exact absurd h3 hs
            · exact Or.inr ⟨h1, h2, h3⟩

/-- Characterization of the tombstone-merge loop: node id, vector clock
and version are unchanged, tombstones and data are updated pointwise by
tombMergeAt and tombKillAt, and the modified flag records whether any
entry was applied. -/
theorem tombLoop_spec :
    ∀ (rt : List (String × Stamp)) (st : CRDTState) (m : Bool), keysND rt →
      ((rt.foldl mergeTombStep (st, m)).1.node_id = st.node_id ∧
       (rt.foldl mergeTombStep (st, m)).1.vector_clock = st.vector_clock ∧
       (rt.foldl mergeTombStep (st, m)).1.version = st.version) ∧
      (∀ k, (rt.foldl mergeTombStep (st, m)).1.tombstones k =
          tombMergeAt (st.tombstones k) (lookupKey rt k)) ∧
      (∀ k, (rt.foldl mergeTombStep (st, m)).1.data k =
          tombKillAt (st.data k) (st.tombstones k) (lookupKey rt k)) ∧
      ((rt.foldl mergeTombStep (st, m)).2 = true ↔
        m = true ∨ ∃ e ∈ rt, tombShould (st.tombstones e.1) e.2) := by
  intro rt
  induction rt with
  | nil =>
    intro st m _
    refine ⟨⟨rfl, rfl, rfl⟩, fun k => rfl, fun k => rfl, by simp⟩
  | cons e t ih =>
    obtain ⟨ek, ep⟩ := e
    intro st m h
    obtain ⟨hnm, ht⟩ := keysND_cons h
    rw [List.foldl_cons]
    by_cases hs : tombShould (st.tombstones ek) ep
    · rcases hd : st.data ek with _ | x
      · -- no local register for the key: only the tombstone map changes
        have hstep : mergeTombStep (st, m) (ek, ep) =
            ({ st with tombstones := fun k => if k = ek then some ep else st.tombstones k },
              true) := by
          simp only [mergeTombStep, hd]
          rw [if_pos hs]
        rw [hstep]
        obtain ⟨⟨f1, f2, f3⟩, htomb, hdata, hmod⟩ :=
          ih { st with tombstones := fun k => if k = ek then some ep else st.tombstones k }
            true ht
        refine ⟨⟨f1, f2, f3⟩, ?_, ?_, ?_⟩
        · intro k
          rw [htomb k]
          by_cases hk : k = ek
          · subst hk
            rw [lookupKey_not_mem hnm, lookupKey_cons, if_pos rfl]
            simp [tombMergeAt, hs]
          · rw [lookupKey_cons, if_neg (fun hh => hk hh.symm)]
            simp [hk]
        · intro k
          rw [hdata k]
          by_cases hk : k = ek
          · subst hk
            rw [lookupKey_not_mem hnm, lookupKey_cons, if_pos rfl]
            simp [tombKillAt, hs, hd]
          · rw [lookupKey_cons, if_neg (fun hh => hk hh.symm)]
            simp [hk]
        · rw [hmod]
          constructor
          · intro _
            exact Or.inr ⟨(ek, ep), List.mem_cons_self _ _, hs⟩
          · intro _
            exact Or.inl rfl
      · by_cases hx : domGt ep x.2
        · -- the new tombstone dominates the local register: register deleted
          have hstep : mergeTombStep (st, m) (ek, ep) =
              ({ st with
                  tombstones := fun k => if k = ek then some ep else st.tombstones k,
                  data := fun k => if k = ek then none else st.data k }, true) := by
            simp only [mergeTombStep, hd]
            rw [if_pos hs, if_pos hx]
          rw [hstep]
          obtain ⟨⟨f1, f2, f3⟩, htomb, hdata, hmod⟩ :=
            ih { st with
                  tombstones := fun k => if k = ek then some ep else st.tombstones k,
                  data := fun k => if k = ek then none else st.data k } true ht
          refine ⟨⟨f1, f2, f3⟩, ?_, ?_, ?_⟩
          · intro k
            rw [htomb k]
            by_cases hk : k = ek
            · subst hk
              rw [lookupKey_not_mem hnm, lookupKey_cons, if_pos rfl]
              simp [tombMergeAt, hs]
            · rw [lookupKey_cons, if_neg (fun hh => hk hh.symm)]
              simp [hk]
          · intro k
            rw [hdata k]
            by_cases hk : k = ek
            · subst hk
              rw [lookupKey_not_mem hnm, lookupKey_cons, if_pos rfl]
              simp [tombKillAt, hs, hd, hx]
            · rw [lookupKey_cons, if_neg (fun hh => hk hh.symm)]
              simp [hk]
          · rw [hmod]
            constructor
            · intro _
              exact Or.inr ⟨(ek, ep), List.mem_cons_self _ _, hs⟩
            · intro _
              exact Or.inl rfl
        · -- tombstone applied but the register survives
          have hstep : mergeTombStep (st, m) (ek, ep) =
              ({ st with tombstones := fun k => if k = ek then some ep else st.tombstones k },
                true) := by
            simp only [mergeTombStep, hd]
            rw [if_pos hs, if_neg hx]
          rw [hstep]
          obtain ⟨⟨f1, f2, f3⟩, htomb, hdata, hmod⟩ :=
            ih { st with tombstones := fun k => if k = ek then some ep else st.tombstones k }
              true ht
          refine ⟨⟨f1, f2, f3⟩, ?_, ?_, ?_⟩
          · intro k
            rw [htomb k]
            by_cases hk : k = ek
            · subst hk
              rw [lookupKey_not_mem hnm, lookupKey_cons, if_pos rfl]
              simp [tombMergeAt, hs]
            · rw [lookupKey_cons, if_neg (fun hh => hk hh.symm)]
              simp [hk]
          · intro k
            rw [hdata k]
            by_cases hk : k = ek
            · subst hk
              rw [lookupKey_not_mem hnm, lookupKey_cons, if_pos rfl]
              simp [tombKillAt, hs, hd, hx]
            · rw [lookupKey_cons, if_neg (fun hh => hk hh.symm)]
              simp [hk]
          · rw [hmod]
            constructor
            · intro _
              exact Or.inr ⟨(ek, ep), List.mem_cons_self _ _, hs⟩
            · intro _
              exact Or.inl rfl
    · have hstep : mergeTombStep (st, m) (ek, ep) = (st, m) := by
        simp only [mergeTombStep]
        rw [if_neg hs]
      rw [hstep]
      obtain ⟨hfields, htomb, hdata, hmod⟩ := ih st m ht
      refine ⟨hfields, ?_, ?_, ?_⟩
      · intro k
        rw [htomb k]
        by_cases hk : k = ek
        · subst hk
          rw [lookupKey_not_mem hnm, lookupKey_cons, if_pos rfl]
          simp [tombMergeAt, hs]
        · rw [lookupKey_cons, if_neg (fun hh => hk hh.symm)]
      · intro k
        rw [hdata k]
        by_cases hk : k = ek
        · subst hk
          rw [lookupKey_not_mem hnm, lookupKey_cons, if_pos rfl]
          simp [tombKillAt, hs]
        · rw [lookupKey_cons, if_neg (fun hh => hk hh.symm)]
      · rw [hmod]
        constructor
        · rintro (hm | ⟨h1, h2, h3⟩)
          · exact Or.inl hm
          · exact Or.inr ⟨h1, List.mem_cons_of_mem _ h2, h3⟩
        · rintro (hm | ⟨h1, h2, h3⟩)
          · exact Or.inl hm
          · rcases List.mem_cons.1 h2 with rfl | h2
            · exact absurd h3 hs
            · exact Or.inr ⟨h1, h2, h3⟩

/-- Characterization of the vector-clock merge loop: all other fields are
unchanged and the clock becomes the pointwise maximum. -/
theorem vcLoop_spec :
    ∀ (rv : List (String × Nat)) (st : CRDTState), keysND rv →
      ((rv.foldl vcStep st).node_id = st.node_id ∧
       (rv.foldl vcStep st).data = st.data ∧
       (rv.foldl vcStep st).tombstones = st.tombstones ∧
       (rv.foldl vcStep st).version = st.version) ∧
      (∀ n, (rv.foldl vcStep st).vector_clock n =
          vcMergeAt (st.vector_clock n) (lookupKey rv n)) := by
  intro rv
  induction rv with
  | nil =>
    intro st _
    exact ⟨⟨rfl, rfl, rfl, rfl⟩, fun n => rfl⟩
  | cons e t ih =>
    obtain ⟨en, es⟩ := e
    intro st h
    obtain ⟨hnm, ht⟩ := keysND_cons h
    rw [List.foldl_cons]
    by_cases hlt : st.vector_clock en < es
    · have hstep : vcStep st (en, es) =
          { st with vector_clock := fun n => if n = en then es else st.vector_clock n } := by
        simp only [vcStep]
        rw [if_pos hlt]
      rw [hstep]
      obtain ⟨⟨f1, f2, f3, f4⟩, hvc⟩ :=
        ih { st with vector_clock := fun n => if n = en then es else st.vector_clock n } ht
      refine ⟨⟨f1, f2, f3, f4⟩, ?_⟩
      intro n
      rw [hvc n]
      by_cases hn : n = en
      · subst hn
        rw [lookupKey_not_mem hnm, lookupKey_cons, if_pos rfl]
        simp [vcMergeAt, Nat.max_eq_right (le_of_lt hlt)]
      · rw [lookupKey_cons, if_neg (fun hh => hn hh.symm)]
        simp [hn]
    · have hstep : vcStep st (en, es) = st := by
        simp only [vcStep]
        rw [if_neg hlt]
      rw [hstep]
      obtain ⟨hfields, hvc⟩ := ih st ht
      refine ⟨hfields, ?_⟩
      intro n
      rw [hvc n]
      by_cases hn : n = en
      · subst hn
        rw [lookupKey_not_mem hnm, lookupKey_cons, if_pos rfl]
        simp [vcMergeAt, Nat.max_eq_left (le_of_not_lt hlt)]
      · rw [lookupKey_cons, if_neg (fun hh => hn hh.symm)]

/-- Full characterization of merge_remote_state: the merged state is
computed pointwise from the local state and the per-key snapshot lookups,
the modified flag is true iff some data or tombstone entry was applied,
and the version is bumped iff modified. -/
theorem mergeRemoteState_spec (st : CRDTState) (rd : List (String × String × Stamp))
    (rt : List (String × Stamp)) (rv : List (String × Nat))
    (hd : keysND rd) (ht : keysND rt) (hv : keysND rv) :
    (mergeRemoteState st rd rt rv).1.node_id = st.node_id ∧
    (∀ k, (mergeRemoteState st rd rt rv).1.data k =
        tombKillAt (dataMergeAt (st.data k) (st.tombstones k) (lookupKey rd k))
          (st.tombstones k) (lookupKey rt k)) ∧
    (∀ k, (mergeRemoteState st rd rt rv).1.tombstones k =
        tombMergeAt (st.tombstones k) (lookupKey rt k)) ∧
    (∀ n, (mergeRemoteState st rd rt rv).1.vector_clock n =
        vcMergeAt (st.vector_clock n) (lookupKey rv n)) ∧
    ((mergeRemoteState st rd rt rv).2 = true ↔
      (∃ e ∈ rd, dataShould (st.data e.1) (st.tombstones e.1) e.2.2) ∨
      (∃ e ∈ rt, tombShould (st.tombstones e.1) e.2)) ∧
    (mergeRemoteState st rd rt rv).1.version =
      (if (mergeRemoteState st rd rt rv).2 = true then st.version + 1 else st.version) := by
  obtain ⟨⟨d1, d2, d3, d4⟩, ddata, dmod⟩ := dataLoop_spec rd st false hd
  rcases ha : rd.foldl mergeDataStep (st, false) with ⟨a1, a2⟩
  simp only [ha] at d1 d2 d3 d4 ddata dmod
  obtain ⟨⟨t1, t2, t3⟩, ttomb, tdata, tmod⟩ := tombLoop_spec rt a1 a2 ht
  rcases hb : rt.foldl mergeTombStep (a1, a2) with ⟨b1, b2⟩
  simp only [hb] at t1 t2 t3 ttomb tdata tmod
  obtain ⟨⟨v1, v2, v3, v4⟩, hvc⟩ := vcLoop_spec rv b1 hv
  have hvcs : ∀ n, (rv.foldl vcStep b1).vector_clock n =
      vcMergeAt (st.vector_clock n) (lookupKey rv n) := by
    intro n
    rw [hvc n, t2, d3]
  have hdat : ∀ k, (rv.foldl vcStep b1).data k =
      tombKillAt (dataMergeAt (st.data k) (st.tombstones k) (lookupKey rd k))
        (st.tombstones k) (lookupKey rt k) := by
    intro k
    have hk := congrArg (fun f => f k) v2
    simp only at hk
    rw [hk, tdata k, ddata k, d2]
  have htmb : ∀ k, (rv.foldl vcStep b1).tombstones k =
      tombMergeAt (st.tombstones k) (lookupKey rt k) := by
    intro k
    have hk := congrArg (fun f => f k) v3
    simp only at hk
    rw [hk, ttomb k, d2]
  have hnid : (rv.foldl vcStep b1).node_id = st.node_id := by rw [v1, t1, d1]
  have hver : (rv.foldl vcStep b1).version = st.version := by rw [v4, t3, d4]
  have hmodIff : b2 = true ↔
      (∃ e ∈ rd, dataShould (st.data e.1) (st.tombstones e.1) e.2.2) ∨
      (∃ e ∈ rt, tombShould (st.tombstones e.1) e.2) := by
    rw [tmod, dmod, d2]
    simp
  rcases hb2 : b2 with _ | _
  · subst hb2
    have hmrs2 : mergeRemoteState st rd rt rv = (rv.foldl vcStep b1, false) := by
      simp [mergeRemoteState, ha, hb]
    have hne : ¬ ((mergeRemoteState st rd rt rv).2 = true) := by rw [hmrs2]; simp
    refine ⟨?_, ?_, ?_, ?_, ?_, ?_⟩
    · rw [hmrs2]; exact hnid
    · intro k; rw [hmrs2]; exact hdat k
    · intro k; rw [hmrs2]; exact htmb k
    · intro n; rw [hmrs2]; exact hvcs n
    · rw [hmrs2]; exact hmodIff
    · rw [if_neg hne, hmrs2]; exact hver
  · subst hb2
    have hmrs2 : mergeRemoteState st rd rt rv =
        ({ rv.foldl vcStep b1 with version := (rv.foldl vcStep b1).version + 1 }, true) := by
      simp [mergeRemoteState, ha, hb]
    have hyes : (mergeRemoteState st rd rt rv).2 = true := by rw [hmrs2]
    refine ⟨?_, ?_, ?_, ?_, ?_, ?_⟩
    · rw [hmrs2]; exact hnid
    · intro k; rw [hmrs2]; exact hdat k
    · intro k; rw [hmrs2]; exact htmb k
    · intro n; rw [hmrs2]; exact hvcs n
    · rw [hmrs2]; exact hmodIff
    · rw [if_pos hyes, hmrs2]
      show (rv.foldl vcStep b1).version + 1 = st.version + 1
      rw [hver]

theorem mergeDataStep_version (acc : CRDTState × Bool) (e : String × String × Stamp) :
    (mergeDataStep acc e).1.version = acc.1.version := by
  simp only [mergeDataStep]
  split_ifs <;> rfl

theorem mergeTombStep_version (acc : CRDTState × Bool) (e : String × Stamp) :
    (mergeTombStep acc e).1.version = acc.1.version := by
  simp only [mergeTombStep]
  by_cases h : tombShould (acc.1.tombstones e.1) e.2
  · rw [if_pos h]
    rcases acc.1.data e.1 with _ | x
    · rfl
    · dsimp only
      split_ifs <;> rfl
  · rw [if_neg h]

theorem vcStep_version (st : CRDTState) (e : String × Nat) :
    (vcStep st e).version = st.version := by
  simp only [vcStep]
  split_ifs <;> rfl

theorem dataLoop_version (rd : List (String × String × Stamp)) :
    ∀ acc, (List.foldl mergeDataStep acc rd).1.version = acc.1.version := by
  induction rd with
  | nil => intro acc; rfl
  | cons e t ih => intro acc; rw [List.foldl_cons, ih, mergeDataStep_version]

theorem tombLoop_version (rt : List (String × Stamp)) :
    ∀ acc, (List.foldl mergeTombStep acc rt).1.version = acc.1.version := by
  induction rt with
  | nil => intro acc; rfl
  | cons e t ih => intro acc; rw [List.foldl_cons, ih, mergeTombStep_version]

theorem vcLoop_version (rv : List (String × Nat)) :
    ∀ st : CRDTState, (List.foldl vcStep st rv).version = st.version := by
  induction rv with
  | nil => intro st; rfl
  | cons e t ih => intro st; rw [List.foldl_cons, ih, vcStep_version]

/-- Version bookkeeping of merge_remote_state, with no hypotheses on the
snapshot: the version is bumped exactly when the merge reports modified. -/
theorem mergeRemoteState_version (st : CRDTState) (rd : List (String × String × Stamp))
    (rt : List (String × Stamp)) (rv : List (String × Nat)) :
    ((mergeRemoteState st rd rt rv).2 = true →
      (mergeRemoteState st rd rt rv).1.version = st.version + 1) ∧
    ((mergeRemoteState st rd rt rv).2 = false →
      (mergeRemoteState st rd rt rv).1.version = st.version) := by
  have hb1v : ∀ (b1 : CRDTState) (b2 : Bool),
      List.foldl mergeTombStep (List.foldl mergeDataStep (st, false) rd) rt = (b1, b2) →
      b1.version = st.version := by
    intro b1 b2 hb
    have h2 := congrArg (fun z => z.1.version) hb
    simp only at h2
    rw [tombLoop_version, dataLoop_version] at h2
    exact h2.symm
  rcases hb : List.foldl mergeTombStep (List.foldl mergeDataStep (st, false) rd) rt
    with ⟨b1, b2⟩
  have hv := hb1v b1 b2 hb
  have hmrs : mergeRemoteState st rd rt rv =
      (if b2 = true
        then ({ List.foldl vcStep b1 rv with version := (List.foldl vcStep b1 rv).version + 1 },
          true)
        else (List.foldl vcStep b1 rv, false)) := by
    simp only [mergeRemoteState, hb]
  rcases b2 with _ | _
  · rw [hmrs]
    simp only [Bool.false_eq_true, if_false]
    constructor
    · intro hfalse
      exact absurd hfalse (by simp)
    · intro _
      show (List.foldl vcStep b1 rv).version = st.version
      rw [vcLoop_version, hv]
  · rw [hmrs]
    simp only [if_pos rfl]
    constructor
    · intro _
      show (List.foldl vcStep b1 rv).version + 1 = st.version + 1
      rw [vcLoop_version, hv]
    · intro htrue
      exact absurd htrue (by simp)

/-- C1 is refuted on the code by the spec's own Scenario 2: node B merges
A's register "v1" for "k" at t=1, A's tombstone at t=2, then A's fresh
register "v2" at t=3.  The live register's stamp (3, "A") strictly
dominates the tombstone's (2, "A"), yet B.get "k" returns none instead of
the register value "v2": get never compares stamps, so any tombstone
shadows the key. -/
theorem c1_counterexample :
    c1B3.data "k" = some ("v2", 3, "A") ∧
    c1B3.tombstones "k" = some (2, "A") ∧
    domGt (3, "A") (2, "A") ∧
    c1B3.get "k" = none :=
  ⟨by decide, by decide, by decide, by decide⟩

/-- C1 (amended): get k returns none whenever any tombstone for k exists,
even one strictly dominated by the live register, and returns the
register's value exactly when no tombstone exists; consequently in the
Scenario 2 merge sequence B.get "k" returns none although the register
map holds "v2". -/
theorem c1_get_amended (st : CRDTState) (k : String) :
    ((st.tombstones k).isSome → st.get k = none) ∧
    (st.tombstones k = none → st.get k = Option.map Prod.fst (st.data k)) := by
  unfold CRDTState.get
  constructor
  · intro h
    obtain ⟨q, hq⟩ := Option.isSome_iff_exists.1 h
    rw [hq]
  · intro h
    rw [h]
    cases st.data k <;> rfl

/-- Witness for the amended C1 at the Scenario 2 state. -/
theorem c1_get_amended_witness : c1B3.get "k" = none :=
  (c1_get_amended c1B3 "k").1 (by decide)

/-- C4 is refuted on the code: with a local tombstone for "k" carrying
stamp (2, "A"), equal to the remote live entry's stamp, and no local
register, merging the remote live entry ("k", "v", (2, "A")) does write
the register -- the tombstone does not win the exact tie, because the
override comparison is strict. -/
theorem c4_counterexample :
    c4local.tombstones "k" = some (2, "A") ∧
    c4local.data "k" = none ∧
    (mergeRemoteState c4local [("k", "v", (2 : ℚ), "A")] [] []).1.data "k" =
      some ("v", 2, "A") :=
  ⟨by decide, by decide, by decide⟩

/-- C4 (amended): in merge_remote_state a remote live entry (v, p) for k
is blocked by a local tombstone with stamp q iff q strictly dominates p;
at exact equality q = p the tombstone does not override and the entry is
written whenever it beats the local register. -/
theorem c4_tombstone_tie_amended (st : CRDTState) (rd : List (String × String × Stamp))
    (k v : String) (p q : Stamp) (hnd : keysND rd)
    (hl : lookupKey rd k = some (v, p)) (hq : st.tombstones k = some q) :
    (domGt q p → (mergeRemoteState st rd [] []).1.data k = st.data k) ∧
    (q = p → (∀ x ∈ st.data k, domGt p x.2) →
      (mergeRemoteState st rd [] []).1.data k = some (v, p)) := by
  obtain ⟨_, hdata, _, _, _, _⟩ :=
    mergeRemoteState_spec st rd [] [] hnd (by simp [keysND]) (by simp [keysND])
  constructor
  · intro hdom
    rw [hdata k, hl, hq]
    simp only [lookupKey, tombKillAt, dataMergeAt]
    rw [if_neg]
    intro hsu
    refine absurd hdom (hsu.2 q ?_)
    rw [Option.mem_def]
  · intro hqp hbeat
    have hsu : dataShould (st.data k) (some q) p := by
      refine ⟨hbeat, ?_⟩
      intro q2 hq2 hd
      rw [Option.mem_def] at hq2
      have hqq : q = q2 := by injection hq2
      rw [← hqq, hqp] at hd
      exact domGt_irrefl p hd
    rw [hdata k, hl, hq]
    simp only [lookupKey, tombKillAt, dataMergeAt]
    rw [if_pos hsu]

/-- Witness for the amended C4: the remote entry at an exactly equal
stamp is written. -/
theorem c4_witness :
    (mergeRemoteState c4local [("k", "v", (2 : ℚ), "A")] [] []).1.data "k" =
      some ("v", 2, "A") :=
  (c4_tombstone_tie_amended c4local [("k", "v", (2 : ℚ), "A")] "k" "v" (2, "A") (2, "A")
      (by decide) (by decide) (by decide)).2 rfl (by decide)

/-- C5: merge_remote_state never removes a tombstone entry: every local
tombstone survives every merge, either unchanged or overwritten by a
strictly dominating stamp (in particular it is retained even when a
remote live register dominating it overwrites data); set removes exactly
its own key's tombstone, and delete removes none. -/
theorem c5_tombstones_retained :
    (∀ (st : CRDTState) (rd : List (String × String × Stamp))
        (rt : List (String × Stamp)) (rv : List (String × Nat)),
      keysND rd → keysND rt → keysND rv →
      ∀ (k : String) (q : Stamp), st.tombstones k = some q →
        ∃ q2, (mergeRemoteState st rd rt rv).1.tombstones k = some q2 ∧
          (q2 = q ∨ domGt q2 q)) ∧
    (∀ (st : CRDTState) (k v : String) (ts : Ts),
      (st.set k v ts).tombstones k = none ∧
      ∀ k2, k2 ≠ k → (st.set k v ts).tombstones k2 = st.tombstones k2) ∧
    (∀ (st : CRDTState) (k : String) (ts : Ts) (k2 : String) (q : Stamp),
      st.tombstones k2 = some q → ∃ q2, (st.delete k ts).tombstones k2 = some q2) := by
  refine ⟨?_, ?_, ?_⟩
  · intro st rd rt rv hd ht hv k q hq
    obtain ⟨_, _, htomb, _, _, _⟩ := mergeRemoteState_spec st rd rt rv hd ht hv
    rw [htomb k]
    cases hr : lookupKey rt k with
    | none =>
      simp only [tombMergeAt]
      exact ⟨q, hq, Or.inl rfl⟩
    | some p =>
      simp only [tombMergeAt]
      by_cases hts : tombShould (st.tombstones k) p
      · refine ⟨p, by rw [if_pos hts], Or.inr ?_⟩
        refine hts q ?_
        rw [Option.mem_def]
        exact hq
      · exact ⟨q, by rw [if_neg hts]; exact hq, Or.inl rfl⟩
  · intro st k v ts
    constructor
    · show (if k = k then none else st.tombstones k) = none
      rw [if_pos rfl]
    · intro k2 hk2
      show (if k2 = k then none else st.tombstones k2) = st.tombstones k2
      rw [if_neg hk2]
  · intro st k ts k2 q hq
    by_cases hk2 : k2 = k
    · refine ⟨(ts, st.node_id), ?_⟩
      show (if k2 = k then some (ts, st.node_id) else st.tombstones k2) = _
      rw [if_pos hk2]
    · refine ⟨q, ?_⟩
      show (if k2 = k then some (ts, st.node_id) else st.tombstones k2) = some q
      rw [if_neg hk2]
      exact hq

/-- Witness for C5: a merged register (3, "A") strictly dominating the
local tombstone (2, "A") overwrites data, yet the tombstone is kept. -/
theorem c5_witness :
    (∃ q2, (mergeRemoteState c5local [("k", "v2", (3 : ℚ), "A")] [] []).1.tombstones "k" =
        some q2 ∧ (q2 = ((2 : ℚ), "A") ∨ domGt q2 (2, "A"))) ∧
    (mergeRemoteState c5local [("k", "v2", (3 : ℚ), "A")] [] []).1.data "k" =
      some ("v2", 3, "A") :=
  ⟨c5_tombstones_retained.1 c5local [("k", "v2", (3 : ℚ), "A")] [] []
      (by decide) (by decide) (by decide) "k" (2, "A") (by decide),
    by decide⟩

/-- C10: the version counter is monotone nondecreasing under every
sequence of set, delete and merge operations; set and delete bump it by
exactly one, and merge bumps it by one exactly when it returns modified
and leaves it unchanged otherwise. -/
theorem c10_version_monotone :
    (∀ (st : CRDTState) (ops : List LocalOp), st.version ≤ (applyOps st ops).version) ∧
    (∀ (st : CRDTState) (k v : String) (ts : Ts),
      (st.set k v ts).version = st.version + 1) ∧
    (∀ (st : CRDTState) (k : String) (ts : Ts),
      (st.delete k ts).version = st.version + 1) ∧
    (∀ (st : CRDTState) (rd : List (String × String × Stamp))
        (rt : List (String × Stamp)) (rv : List (String × Nat)),
      ((mergeRemoteState st rd rt rv).2 = true →
        (mergeRemoteState st rd rt rv).1.version = st.version + 1) ∧
      ((mergeRemoteState st rd rt rv).2 = false →
        (mergeRemoteState st rd rt rv).1.version = st.version)) := by
  have hop : ∀ (st : CRDTState) (op : LocalOp), st.version ≤ (applyOp st op).version := by
    intro st op
    cases op with
    | setOp k v ts => exact Nat.le_succ _
    | delOp k ts => exact Nat.le_succ _
    | mergeOp rd rt rv =>
      rcases Bool.eq_false_or_eq_true (mergeRemoteState st rd rt rv).2 with hm | hm
      · show st.version ≤ (mergeRemoteState st rd rt rv).1.version
        rw [(mergeRemoteState_version st rd rt rv).1 hm]
        exact Nat.le_succ _
      · show st.version ≤ (mergeRemoteState st rd rt rv).1.version
        rw [(mergeRemoteState_version st rd rt rv).2 hm]
  refine ⟨?_, fun st k v ts => rfl, fun st k ts => rfl,
    fun st rd rt rv => mergeRemoteState_version st rd rt rv⟩
  intro st ops
  induction ops generalizing st with
  | nil => exact le_refl _
  | cons op t ih => exact le_trans (hop st op) (ih (applyOp st op))

/-- Witness for C10 at concrete operations. -/
theorem c10_witness :
    ((initState "A").set "x" "v" 1).version = (initState "A").version + 1 ∧
    (mergeRemoteState (initState "A") [] [] []).1.version = (initState "A").version :=
  ⟨c10_version_monotone.2.1 (initState "A") "x" "v" 1,
   (c10_version_monotone.2.2.2 (initState "A") [] [] []).2 (by decide)⟩

theorem lookupKey_of_mem {β : Type} {l : List (String × β)} (h : keysND l)
    {e : String × β} (he : e ∈ l) : lookupKey l e.1 = some e.2 := by
  induction l with
  | nil => cases he
  | cons a t ih =>
    obtain ⟨hnm, ht⟩ := keysND_cons h
    obtain ⟨ak, av⟩ := a
    rcases List.mem_cons.1 he with heq | he2
    · rw [heq, lookupKey_cons, if_pos rfl]
    · have hne : ak ≠ e.1 := by
        intro hc
        exact hnm (List.mem_map.2 ⟨e, he2, hc.symm⟩)
      rw [lookupKey_cons, if_neg hne]
      exact ih ht he2

theorem dataMergeAt_none (ld : Option (String × Stamp)) (lt : Option Stamp) :
    dataMergeAt ld lt none = ld := rfl

theorem dataMergeAt_some (ld : Option (String × Stamp)) (lt : Option Stamp)
    (v : String) (p : Stamp) :
    dataMergeAt ld lt (some (v, p)) = if dataShould ld lt p then some (v, p) else ld := rfl

theorem tombMergeAt_some (lt : Option Stamp) (p : Stamp) :
    tombMergeAt lt (some p) = if tombShould lt p then some p else lt := rfl

theorem tombKillAt_none (ld : Option (String × Stamp)) (lt : Option Stamp) :
    tombKillAt ld lt none = ld := rfl

theorem tombKillAt_not (ld : Option (String × Stamp)) (lt : Option Stamp) (p : Stamp)
    (h : ¬ tombShould lt p) : tombKillAt ld lt (some p) = ld := by
  simp only [tombKillAt]
  rw [if_neg h]

theorem tombShould_self (p : Stamp) : ¬ tombShould (some p) p := by
  intro h
  refine domGt_irrefl p (h p ?_)
  rw [Option.mem_def]

theorem tombMergeAt_idem (lt : Option Stamp) (r : Option Stamp) :
    tombMergeAt (tombMergeAt lt r) r = tombMergeAt lt r := by
  cases r with
  | none => rfl
  | some p =>
    simp only [tombMergeAt]
    by_cases hts : tombShould lt p
    · rw [if_pos hts, if_neg (tombShould_self p)]
    · rw [if_neg hts, if_neg hts]

theorem vcMergeAt_idem (v : Nat) (r : Option Nat) :
    vcMergeAt (vcMergeAt v r) r = vcMergeAt v r := by
  cases r with
  | none => rfl
  | some s =>
    simp only [vcMergeAt]
    rw [max_assoc, max_self]

/-- Re-applying the same remote tombstone entry on the post-merge
tombstone cell no longer should-updates. -/
theorem tombShould_after (lt : Option Stamp) (p : Stamp) :
    ¬ tombShould (tombMergeAt lt (some p)) p := by
  simp only [tombMergeAt]
  by_cases hts : tombShould lt p
  · rw [if_pos hts]
    exact tombShould_self p
  · rw [if_neg hts]
    exact hts

/-- Re-applying the same remote data entry on the post-merge cell no
longer should-updates. -/
theorem dataShould_after (ld : Option (String × Stamp)) (lt : Option Stamp)
    (rtk : Option Stamp) (v : String) (p : Stamp) :
    ¬ dataShould (tombKillAt (dataMergeAt ld lt (some (v, p))) lt rtk)
        (tombMergeAt lt rtk) p := by
  by_cases hds : dataShould ld lt p
  · simp only [dataMergeAt, if_pos hds]
    cases rtk with
    | none =>
      simp only [tombKillAt, tombMergeAt]
      intro hsu
      refine domGt_irrefl p (hsu.1 (v, p) ?_)
      rw [Option.mem_def]
    | some pt =>
      simp only [tombKillAt, tombMergeAt]
      by_cases hts : tombShould lt pt
      · rw [if_pos hts, if_pos hts]
        by_cases hk : domGt pt (v, p).2
        · rw [if_pos hk]
          intro hsu
          refine (hsu.2 pt ?_) hk
          rw [Option.mem_def]
        · rw [if_neg hk]
          intro hsu
          refine domGt_irrefl p (hsu.1 (v, p) ?_)
          rw [Option.mem_def]
      · rw [if_neg hts, if_neg hts]
        intro hsu
        refine domGt_irrefl p (hsu.1 (v, p) ?_)
        rw [Option.mem_def]
  · simp only [dataMergeAt, if_neg hds]
    rcases not_and_or.1 hds with hA | hB
    · cases hld : ld with
      | none =>
        refine absurd ?_ hA
        intro x hx
        rw [hld, Option.mem_def] at hx
        cases hx
      | some x0 =>
        have hnx : ¬ domGt p x0.2 := by
          intro hc
          apply hA
          intro x hx
          rw [hld, Option.mem_def] at hx
          have hx0 : x0 = x := by injection hx
          rw [← hx0]
          exact hc
        cases rtk with
        | none =>
          simp only [tombKillAt, tombMergeAt]
          intro hsu
          refine hnx (hsu.1 x0 ?_)
          rw [Option.mem_def]
        | some pt =>
          simp only [tombKillAt, tombMergeAt]
          by_cases hts : tombShould lt pt
          · rw [if_pos hts, if_pos hts]
            by_cases hk : domGt pt x0.2
            · rw [if_pos hk]
              intro hsu
              have hnp : ¬ domGt pt p := hsu.2 pt (by rw [Option.mem_def])
              rcases domGt_trichot p x0.2 with h1 | h1 | h1
              · exact hnx h1
              · exact hnp (h1 ▸ hk)
              · exact hnp (domGt_trans hk h1)
            · rw [if_neg hk]
              intro hsu
              refine hnx (hsu.1 x0 ?_)
              rw [Option.mem_def]
          · rw [if_neg hts, if_neg hts]
            intro hsu
            refine hnx (hsu.1 x0 ?_)
            rw [Option.mem_def]
    · cases hlt : lt with
      | none =>
        refine absurd ?_ hB
        intro q hq
        rw [hlt, Option.mem_def] at hq
        cases hq
      | some q0 =>
        have hq0 : domGt q0 p := by
          by_contra hc
          apply hB
          intro q hq
          rw [hlt, Option.mem_def] at hq
          have hqq : q0 = q := by injection hq
          rw [← hqq]
          exact hc
        cases rtk with
        | none =>
          simp only [tombKillAt, tombMergeAt]
          intro hsu
          exact (hsu.2 q0 (by rw [Option.mem_def])) hq0
        | some pt =>
          simp only [tombKillAt, tombMergeAt]
          by_cases hts : tombShould (some q0) pt
          · rw [if_pos hts, if_pos hts]
            intro hsu
            have hpt : domGt pt q0 := hts q0 (by rw [Option.mem_def])
            exact (hsu.2 pt (by rw [Option.mem_def])) (domGt_trans hpt hq0)
          · rw [if_neg hts, if_neg hts]
            intro hsu
            exact (hsu.2 q0 (by rw [Option.mem_def])) hq0

/-- C2: merge_remote_state is idempotent: applying the same snapshot a
second time returns the unchanged state (data, tombstones, vector clock,
version and node id all equal) together with modified = false. -/
theorem c2_merge_idempotent (st : CRDTState) (rd : List (String × String × Stamp))
    (rt : List (String × Stamp)) (rv : List (String × Nat))
    (hd : keysND rd) (ht : keysND rt) (hv : keysND rv) :
    mergeRemoteState (mergeRemoteState st rd rt rv).1 rd rt rv =
      ((mergeRemoteState st rd rt rv).1, false) := by
  obtain ⟨n1, hdataA, htombA, hvcA, hmodA, hverA⟩ := mergeRemoteState_spec st rd rt rv hd ht hv
  obtain ⟨n2, hdataB, htombB, hvcB, hmodB, hverB⟩ :=
    mergeRemoteState_spec (mergeRemoteState st rd rt rv).1 rd rt rv hd ht hv
  have hmod2 : (mergeRemoteState (mergeRemoteState st rd rt rv).1 rd rt rv).2 = false := by
    rcases Bool.eq_false_or_eq_true
      (mergeRemoteState (mergeRemoteState st rd rt rv).1 rd rt rv).2 with hm | hm
    swap
    · exact hm
    · exfalso
      rcases hmodB.1 hm with ⟨e, he, hsh⟩ | ⟨e, he, hsh⟩
      · rw [hdataA e.1, htombA e.1, lookupKey_of_mem hd he] at hsh
        exact dataShould_after (st.data e.1) (st.tombstones e.1) (lookupKey rt e.1)
          e.2.1 e.2.2 hsh
      · rw [htombA e.1, lookupKey_of_mem ht he] at hsh
        exact tombShould_after (st.tombstones e.1) e.2 hsh
  have hdata2 : ∀ k, (mergeRemoteState (mergeRemoteState st rd rt rv).1 rd rt rv).1.data k =
      (mergeRemoteState st rd rt rv).1.data k := by
    intro k
    rw [hdataB k, hdataA k, htombA k]
    cases hrd : lookupKey rd k with
    | none =>
      simp only [dataMergeAt]
      cases hrt : lookupKey rt k with
      | none => rfl
      | some pt =>
        simp only [tombKillAt]
        rw [if_neg (tombShould_after (st.tombstones k) pt)]
    | some x =>
      obtain ⟨xv, xp⟩ := x
      have h1 : dataMergeAt (tombKillAt (dataMergeAt (st.data k) (st.tombstones k)
            (some (xv, xp))) (st.tombstones k) (lookupKey rt k))
            (tombMergeAt (st.tombstones k) (lookupKey rt k)) (some (xv, xp)) =
          tombKillAt (dataMergeAt (st.data k) (st.tombstones k) (some (xv, xp)))
            (st.tombstones k) (lookupKey rt k) := by
        rw [dataMergeAt_some]
        rw [if_neg (dataShould_after (st.data k) (st.tombstones k) (lookupKey rt k) xv xp)]
      rw [h1]
      cases hrt : lookupKey rt k with
      | none => rfl
      | some pt =>
        simp only [tombKillAt]
        rw [if_neg (tombShould_after (st.tombstones k) pt)]
  have htomb2 : ∀ k, (mergeRemoteState (mergeRemoteState st rd rt rv).1 rd rt rv).1.tombstones k =
      (mergeRemoteState st rd rt rv).1.tombstones k := by
    intro k
    rw [htombB k, htombA k]
    exact tombMergeAt_idem (st.tombstones k) (lookupKey rt k)
  have hvc2 : ∀ n, (mergeRemoteState (mergeRemoteState st rd rt rv).1 rd rt rv).1.vector_clock n =
      (mergeRemoteState st rd rt rv).1.vector_clock n := by
    intro n
    rw [hvcB n, hvcA n]
    exact vcMergeAt_idem (st.vector_clock n) (lookupKey rv n)
  have hver2 : (mergeRemoteState (mergeRemoteState st rd rt rv).1 rd rt rv).1.version =
      (mergeRemoteState st rd rt rv).1.version := by
    rw [hverB, hmod2]
    simp
  have hstate : (mergeRemoteState (mergeRemoteState st rd rt rv).1 rd rt rv).1 =
      (mergeRemoteState st rd rt rv).1 := by
    apply CRDTState.ext
    · exact n2
    · exact funext hdata2
    · exact funext hvc2
    · exact funext htomb2
    · exact hver2
  calc mergeRemoteState (mergeRemoteState st rd rt rv).1 rd rt rv
      = ((mergeRemoteState (mergeRemoteState st rd rt rv).1 rd rt rv).1,
         (mergeRemoteState (mergeRemoteState st rd rt rv).1 rd rt rv).2) := rfl
    _ = ((mergeRemoteState st rd rt rv).1, false) := by rw [hstate, hmod2]

/-- Witness for C2 at a concrete state and snapshot. -/
theorem c2_witness :
    mergeRemoteState (mergeRemoteState (initState "B")
        [("k", "v", (1 : ℚ), "A")] [("j", (2 : ℚ), "C")] [("A", 1)]).1
        [("k", "v", (1 : ℚ), "A")] [("j", (2 : ℚ), "C")] [("A", 1)] =
      ((mergeRemoteState (initState "B")
        [("k", "v", (1 : ℚ), "A")] [("j", (2 : ℚ), "C")] [("A", 1)]).1, false) :=
  c2_merge_idempotent (initState "B") [("k", "v", (1 : ℚ), "A")] [("j", (2 : ℚ), "C")]
    [("A", 1)] (by decide) (by decide) (by decide)

theorem optBall_none {α : Type} (P : α → Prop) : ∀ x ∈ (none : Option α), P x := by
  intro x hx
  rw [Option.mem_def] at hx
  cases hx

theorem optBall_some {α : Type} (P : α → Prop) (a : α) : (∀ x ∈ some a, P x) ↔ P a := by
  constructor
  · intro h
    refine h a ?_
    rw [Option.mem_def]
  · intro h x hx
    rw [Option.mem_def] at hx
    have hh : a = x := by injection hx
    rw [← hh]
    exact h

theorem tombShould_none (p : Stamp) : tombShould none p :=
  optBall_none _

theorem tombShould_some (a b : Stamp) : tombShould (some a) b ↔ domGt b a :=
  optBall_some _ a

theorem killReg_none (q : Stamp) : killReg none q = none := rfl

theorem killReg_some (x : String × Stamp) (q : Stamp) :
    killReg (some x) q = if domGt q x.2 then none else some x := rfl

theorem killReg_absorb (r : Option (String × Stamp)) (q1 q2 : Stamp) (h : domGt q2 q1) :
    killReg (killReg r q1) q2 = killReg r q2 := by
  cases r with
  | none => rfl
  | some x =>
    rw [killReg_some]
    by_cases hk : domGt q1 x.2
    · rw [if_pos hk, killReg_none, killReg_some, if_pos (domGt_trans h hk)]
    · rw [if_neg hk]

theorem appD_none (c : Option (String × Stamp) × Option Stamp) : appD c none = c := rfl

theorem appT_none (c : Option (String × Stamp) × Option Stamp) : appT c none = c := rfl

theorem appD_some (r : Option (String × Stamp)) (l : Option Stamp) (v : String) (p : Stamp) :
    appD (r, l) (some (v, p)) = (if dataShould r l p then some (v, p) else r, l) := rfl

theorem tombKillAt_app (r : Option (String × Stamp)) (l : Option Stamp) (q : Stamp)
    (h : tombShould l q) : tombKillAt r l (some q) = killReg r q := by
  simp only [tombKillAt, killReg]
  rw [if_pos h]
  cases r with
  | none => rfl
  | some x => rfl

theorem tombMergeAt_app (l : Option Stamp) (q : Stamp) (h : tombShould l q) :
    tombMergeAt l (some q) = some q := by
  rw [tombMergeAt_some, if_pos h]

theorem tombMergeAt_notapp (l : Option Stamp) (q : Stamp) (h : ¬ tombShould l q) :
    tombMergeAt l (some q) = l := by
  rw [tombMergeAt_some, if_neg h]

theorem appT_app (r : Option (String × Stamp)) (l : Option Stamp) (q : Stamp)
    (h : tombShould l q) : appT (r, l) (some q) = (killReg r q, some q) := by
  show (tombKillAt r l (some q), tombMergeAt l (some q)) = (killReg r q, some q)
  rw [tombKillAt_app r l q h, tombMergeAt_app l q h]

theorem appT_notapp (r : Option (String × Stamp)) (l : Option Stamp) (q : Stamp)
    (h : ¬ tombShould l q) : appT (r, l) (some q) = (r, l) := by
  show (tombKillAt r l (some q), tombMergeAt l (some q)) = (r, l)
  rw [tombKillAt_not r l q h, tombMergeAt_notapp l q h]

/-- Two tombstone phases commute on a per-key cell. -/
theorem appT_comm (c : Option (String × Stamp) × Option Stamp) (t1 t2 : Option Stamp) :
    appT (appT c t1) t2 = appT (appT c t2) t1 := by
  cases t1 with
  | none => rw [appT_none, appT_none]
  | some q1 =>
    cases t2 with
    | none => rw [appT_none, appT_none]
    | some q2 =>
      obtain ⟨r, l⟩ := c
      by_cases a1 : tombShould l q1 <;> by_cases a2 : tombShould l q2
      · rcases domGt_trichot q1 q2 with h12 | h12 | h12
        · rw [appT_app r l q1 a1, appT_app r l q2 a2,
            appT_notapp _ _ _ (fun hc => domGt_asymm h12 ((tombShould_some q1 q2).1 hc)),
            appT_app _ _ _ ((tombShould_some q2 q1).2 h12), killReg_absorb r q2 q1 h12]
        · rw [h12]
        · rw [appT_app r l q1 a1, appT_app r l q2 a2,
            appT_app _ _ _ ((tombShould_some q1 q2).2 h12),
            appT_notapp _ _ _ (fun hc => domGt_asymm h12 ((tombShould_some q2 q1).1 hc)),
            killReg_absorb r q1 q2 h12]
      · cases l with
        | none => exact absurd (tombShould_none q2) a2
        | some l0 =>
          have hq1l : domGt q1 l0 := (tombShould_some l0 q1).1 a1
          have hnq2 : ¬ domGt q2 l0 := fun hc => a2 ((tombShould_some l0 q2).2 hc)
          rw [appT_app r _ q1 a1, appT_notapp r _ q2 a2,
            appT_notapp _ _ _
              (fun hc => hnq2 (domGt_trans ((tombShould_some q1 q2).1 hc) hq1l)),
            appT_app r _ q1 a1]
      · cases l with
        | none => exact absurd (tombShould_none q1) a1
        | some l0 =>
          have hq2l : domGt q2 l0 := (tombShould_some l0 q2).1 a2
          have hnq1 : ¬ domGt q1 l0 := fun hc => a1 ((tombShould_some l0 q1).2 hc)
          rw [appT_notapp r _ q1 a1, appT_app r _ q2 a2,
            appT_notapp _ _ _
              (fun hc => hnq1 (domGt_trans ((tombShould_some q2 q1).1 hc) hq2l))]
      · rw [appT_notapp r l q1 a1, appT_notapp r l q2 a2, appT_notapp r l q1 a1]

theorem killReg_mk (v : String) (p q : Stamp) :
    killReg (some (v, p)) q = if domGt q p then none else some (v, p) := rfl

/-- Two data phases commute on a per-key cell, provided entries carrying
the same stamp carry the same value. -/
theorem appD_comm (c : Option (String × Stamp) × Option Stamp)
    (d1 d2 : Option (String × Stamp))
    (hvv : ∀ v1 p v2, d1 = some (v1, p) → d2 = some (v2, p) → v1 = v2) :
    appD (appD c d1) d2 = appD (appD c d2) d1 := by
  cases d1 with
  | none => rw [appD_none, appD_none]
  | some x1 =>
    cases d2 with
    | none => rw [appD_none, appD_none]
    | some x2 =>
      obtain ⟨v1, p1⟩ := x1
      obtain ⟨v2, p2⟩ := x2
      obtain ⟨r, l⟩ := c
      by_cases s1 : dataShould r l p1 <;> by_cases s2 : dataShould r l p2
      · rw [appD_some r l v1 p1, if_pos s1, appD_some r l v2 p2, if_pos s2,
          appD_some, appD_some]
        rcases domGt_trichot p1 p2 with h12 | h12 | h12
        · rw [if_neg (fun hc => domGt_asymm h12 ((optBall_some _ (v1, p1)).1 hc.1)),
            if_pos ⟨(optBall_some _ (v2, p2)).2 h12, s1.2⟩]
        · have hv : v1 = v2 := hvv v1 p1 v2 rfl (by rw [h12])
          rw [hv, h12]
        · rw [if_pos ⟨(optBall_some _ (v1, p1)).2 h12, s2.2⟩,
            if_neg (fun hc => domGt_asymm h12 ((optBall_some _ (v2, p2)).1 hc.1))]
      · rw [appD_some r l v1 p1, if_pos s1, appD_some r l v2 p2, if_neg s2,
          appD_some, appD_some]
        have hnc : ¬ dataShould (some (v1, p1)) l p2 := by
          intro hc
          apply s2
          refine ⟨?_, hc.2⟩
          intro x hx
          exact domGt_trans ((optBall_some _ (v1, p1)).1 hc.1) (s1.1 x hx)
        rw [if_neg hnc, if_pos s1]
      · rw [appD_some r l v1 p1, if_neg s1, appD_some r l v2 p2, if_pos s2,
          appD_some]
        have hnc : ¬ dataShould (some (v2, p2)) l p1 := by
          intro hc
          apply s1
          refine ⟨?_, hc.2⟩
          intro x hx
          exact domGt_trans ((optBall_some _ (v2, p2)).1 hc.1) (s2.1 x hx)
        rw [if_neg hnc]
      · rw [appD_some r l v1 p1, if_neg s1, appD_some r l v2 p2, if_neg s2,
          appD_some, if_neg s1]

/-- A data phase and a tombstone phase commute on a per-key cell. -/
theorem appDT_comm (c : Option (String × Stamp) × Option Stamp)
    (d : Option (String × Stamp)) (t : Option Stamp) :
    appT (appD c d) t = appD (appT c t) d := by
  cases d with
  | none => rw [appD_none, appD_none]
  | some x =>
    cases t with
    | none => rw [appT_none, appT_none]
    | some q =>
      obtain ⟨v, p⟩ := x
      obtain ⟨r, l⟩ := c
      by_cases a : tombShould l q
      · by_cases s : dataShould r l p
        · rw [appD_some r l v p, if_pos s, appT_app _ l q a, appT_app r l q a,
            appD_some, killReg_mk]
          by_cases hqp : domGt q p
          · have hkill : killReg r q = none := by
              cases hr : r with
              | none => rfl
              | some x0 =>
                rw [hr] at s
                rw [killReg_some,
                  if_pos (domGt_trans hqp ((optBall_some _ x0).1 s.1))]
            have hnc : ¬ dataShould (killReg r q) (some q) p :=
              fun hc => ((optBall_some _ q).1 hc.2) hqp
            rw [if_pos hqp, if_neg hnc, hkill]
          · have hball : ∀ x ∈ killReg r q, domGt p x.2 := by
              intro x hx
              cases hr : r with
              | none =>
                rw [hr, killReg_none, Option.mem_def] at hx
                cases hx
              | some x0 =>
                rw [hr] at s
                rw [hr, killReg_some] at hx
                by_cases hk : domGt q x0.2
                · rw [if_pos hk, Option.mem_def] at hx
                  cases hx
                · rw [if_neg hk, Option.mem_def] at hx
                  have hxx : x0 = x := by injection hx
                  rw [← hxx]
                  exact (optBall_some _ x0).1 s.1
            rw [if_neg hqp, if_pos ⟨hball, (optBall_some _ q).2 hqp⟩]
        · rw [appD_some r l v p, if_neg s, appT_app r l q a, appD_some]
          have hnc : ¬ dataShould (killReg r q) (some q) p := by
            intro hc
            rcases not_and_or.1 s with hA | hB
            · cases hr2 : r with
              | none =>
                rw [hr2] at hA
                exact hA (optBall_none _)
              | some x0 =>
                rw [hr2] at hA
                have hnx : ¬ domGt p x0.2 := fun hd => hA ((optBall_some _ x0).2 hd)
                by_cases hk : domGt q x0.2
                · have hqp : domGt q p := by
                    rcases domGt_trichot p x0.2 with h1 | h1 | h1
                    · exact absurd h1 hnx
                    · exact h1 ▸ hk
                    · exact domGt_trans hk h1
                  exact ((optBall_some _ q).1 hc.2) hqp
                · have hx0m : ∀ x ∈ killReg (some x0) q, domGt p x.2 := hr2 ▸ hc.1
                  rw [killReg_some, if_neg hk] at hx0m
                  exact hnx ((optBall_some _ x0).1 hx0m)
            · cases hl2 : l with
              | none =>
                rw [hl2] at hB
                exact hB (optBall_none _)
              | some q0 =>
                rw [hl2] at hB a
                have hq0 : domGt q0 p := by
                  by_contra hd
                  exact hB ((optBall_some _ q0).2 hd)
                have hqq0 : domGt q q0 := (tombShould_some q0 q).1 a
                exact ((optBall_some _ q).1 hc.2) (domGt_trans hqq0 hq0)
          rw [if_neg hnc]
      · rw [appD_some r l v p, appT_notapp _ l q a, appT_notapp r l q a, appD_some]

/-- The four per-key phases of two merges commute as required. -/
theorem appChain_comm (c : Option (String × Stamp) × Option Stamp)
    (d1 d2 : Option (String × Stamp)) (t1 t2 : Option Stamp)
    (hvv : ∀ v1 p v2, d1 = some (v1, p) → d2 = some (v2, p) → v1 = v2) :
    appT (appD (appT (appD c d1) t1) d2) t2 =
      appT (appD (appT (appD c d2) t2) d1) t1 := by
  calc appT (appD (appT (appD c d1) t1) d2) t2
      = appT (appT (appD (appD c d1) d2) t1) t2 := by rw [← appDT_comm]
    _ = appT (appT (appD (appD c d2) d1) t1) t2 := by rw [appD_comm c d1 d2 hvv]
    _ = appT (appT (appD (appD c d2) d1) t2) t1 := appT_comm _ t1 t2
    _ = appT (appD (appT (appD c d2) t2) d1) t1 := by rw [appDT_comm]

theorem vcMergeAt_comm (v : Nat) (r1 r2 : Option Nat) :
    vcMergeAt (vcMergeAt v r1) r2 = vcMergeAt (vcMergeAt v r2) r1 := by
  cases r1 with
  | none => rfl
  | some a =>
    cases r2 with
    | none => rfl
    | some b =>
      simp only [vcMergeAt]
      rw [max_assoc, max_comm a b, ← max_assoc]

/-- C3 is refuted on the code: with conflicting values at an identical
(ts, origin) stamp the first-merged value wins, so the two orders leave
different registers; and even for consistent snapshots where one entry
dominates the other, the two orders leave different version counters
(2 versus 1). -/
theorem c3_counterexample :
    (c3mergeAB [("k", "a", (1 : ℚ), "X")] [("k", "b", (1 : ℚ), "X")]).data "k" =
        some ("a", 1, "X") ∧
    (c3mergeAB [("k", "b", (1 : ℚ), "X")] [("k", "a", (1 : ℚ), "X")]).data "k" =
        some ("b", 1, "X") ∧
    (c3mergeAB [("k", "a", (1 : ℚ), "X")] [("k", "b", (2 : ℚ), "X")]).version = 2 ∧
    (c3mergeAB [("k", "b", (2 : ℚ), "X")] [("k", "a", (1 : ℚ), "X")]).version = 1 :=
  ⟨by decide, by decide, by decide, by decide⟩

/-- C3 (amended): merge_remote_state commutes on the data, tombstone and
vector-clock maps (the version counter excluded) provided the two
snapshots are value-consistent: whenever both carry the same key at the
same (ts, origin) stamp, they carry the same value. -/
theorem c3_merge_commutative (st : CRDTState)
    (rd1 : List (String × String × Stamp)) (rt1 : List (String × Stamp))
    (rv1 : List (String × Nat))
    (rd2 : List (String × String × Stamp)) (rt2 : List (String × Stamp))
    (rv2 : List (String × Nat))
    (hd1 : keysND rd1) (ht1 : keysND rt1) (hv1 : keysND rv1)
    (hd2 : keysND rd2) (ht2 : keysND rt2) (hv2 : keysND rv2)
    (hcons : ∀ (k : String) (v1 : String) (p1 : Stamp) (v2 : String) (p2 : Stamp),
      lookupKey rd1 k = some (v1, p1) → lookupKey rd2 k = some (v2, p2) →
      p1 = p2 → v1 = v2) :
    (mergeRemoteState (mergeRemoteState st rd1 rt1 rv1).1 rd2 rt2 rv2).1.node_id =
      (mergeRemoteState (mergeRemoteState st rd2 rt2 rv2).1 rd1 rt1 rv1).1.node_id ∧
    (mergeRemoteState (mergeRemoteState st rd1 rt1 rv1).1 rd2 rt2 rv2).1.data =
      (mergeRemoteState (mergeRemoteState st rd2 rt2 rv2).1 rd1 rt1 rv1).1.data ∧
    (mergeRemoteState (mergeRemoteState st rd1 rt1 rv1).1 rd2 rt2 rv2).1.tombstones =
      (mergeRemoteState (mergeRemoteState st rd2 rt2 rv2).1 rd1 rt1 rv1).1.tombstones ∧
    (mergeRemoteState (mergeRemoteState st rd1 rt1 rv1).1 rd2 rt2 rv2).1.vector_clock =
      (mergeRemoteState (mergeRemoteState st rd2 rt2 rv2).1 rd1 rt1 rv1).1.vector_clock := by
  obtain ⟨nA1, dA1, tA1, vA1, mA1, verA1⟩ := mergeRemoteState_spec st rd1 rt1 rv1 hd1 ht1 hv1
  obtain ⟨nA2, dA2, tA2, vA2, mA2, verA2⟩ :=
    mergeRemoteState_spec (mergeRemoteState st rd1 rt1 rv1).1 rd2 rt2 rv2 hd2 ht2 hv2
  obtain ⟨nB1, dB1, tB1, vB1, mB1, verB1⟩ := mergeRemoteState_spec st rd2 rt2 rv2 hd2 ht2 hv2
  obtain ⟨nB2, dB2, tB2, vB2, mB2, verB2⟩ :=
    mergeRemoteState_spec (mergeRemoteState st rd2 rt2 rv2).1 rd1 rt1 rv1 hd1 ht1 hv1
  have hcellA : ∀ k,
      ((mergeRemoteState (mergeRemoteState st rd1 rt1 rv1).1 rd2 rt2 rv2).1.data k,
       (mergeRemoteState (mergeRemoteState st rd1 rt1 rv1).1 rd2 rt2 rv2).1.tombstones k) =
      appT (appD (appT (appD (st.data k, st.tombstones k) (lookupKey rd1 k))
        (lookupKey rt1 k)) (lookupKey rd2 k)) (lookupKey rt2 k) := by
    intro k
    rw [dA2 k, tA2 k, dA1 k, tA1 k]
    rfl
  have hcellB : ∀ k,
      ((mergeRemoteState (mergeRemoteState st rd2 rt2 rv2).1 rd1 rt1 rv1).1.data k,
       (mergeRemoteState (mergeRemoteState st rd2 rt2 rv2).1 rd1 rt1 rv1).1.tombstones k) =
      appT (appD (appT (appD (st.data k, st.tombstones k) (lookupKey rd2 k))
        (lookupKey rt2 k)) (lookupKey rd1 k)) (lookupKey rt1 k) := by
    intro k
    rw [dB2 k, tB2 k, dB1 k, tB1 k]
    rfl
  have hchain : ∀ k,
      appT (appD (appT (appD (st.data k, st.tombstones k) (lookupKey rd1 k))
        (lookupKey rt1 k)) (lookupKey rd2 k)) (lookupKey rt2 k) =
      appT (appD (appT (appD (st.data k, st.tombstones k) (lookupKey rd2 k))
        (lookupKey rt2 k)) (lookupKey rd1 k)) (lookupKey rt1 k) := by
    intro k
    exact appChain_comm _ _ _ _ _ (fun v1 p v2 h1 h2 => hcons k v1 p v2 p h1 h2 rfl)
  refine ⟨?_, ?_, ?_, ?_⟩
  · rw [nA2, nA1, nB2, nB1]
  · funext k
    have hA := congrArg Prod.fst (hcellA k)
    have hB := congrArg Prod.fst (hcellB k)
    simp only at hA hB
    rw [hA, hB, hchain k]
  · funext k
    have hA := congrArg Prod.snd (hcellA k)
    have hB := congrArg Prod.snd (hcellB k)
    simp only at hA hB
    rw [hA, hB, hchain k]
  · funext n
    rw [vA2 n, vA1 n, vB2 n, vB1 n]
    exact vcMergeAt_comm (st.vector_clock n) (lookupKey rv1 n) (lookupKey rv2 n)

/-- Witness for the amended C3 at concrete snapshots. -/
theorem c3_witness :
    (mergeRemoteState (mergeRemoteState (initState "N")
        [("k", "x", (1 : ℚ), "A")] [] []).1 [] [("j", (2 : ℚ), "B")] [("B", 1)]).1.node_id =
      (mergeRemoteState (mergeRemoteState (initState "N")
        [] [("j", (2 : ℚ), "B")] [("B", 1)]).1 [("k", "x", (1 : ℚ), "A")] [] []).1.node_id ∧
    (mergeRemoteState (mergeRemoteState (initState "N")
        [("k", "x", (1 : ℚ), "A")] [] []).1 [] [("j", (2 : ℚ), "B")] [("B", 1)]).1.data =
      (mergeRemoteState (mergeRemoteState (initState "N")
        [] [("j", (2 : ℚ), "B")] [("B", 1)]).1 [("k", "x", (1 : ℚ), "A")] [] []).1.data ∧
    (mergeRemoteState (mergeRemoteState (initState "N")
        [("k", "x", (1 : ℚ), "A")] [] []).1 [] [("j", (2 : ℚ), "B")] [("B", 1)]).1.tombstones =
      (mergeRemoteState (mergeRemoteState (initState "N")
        [] [("j", (2 : ℚ), "B")] [("B", 1)]).1 [("k", "x", (1 : ℚ), "A")] [] []).1.tombstones ∧
    (mergeRemoteState (mergeRemoteState (initState "N")
        [("k", "x", (1 : ℚ), "A")] [] []).1 [] [("j", (2 : ℚ), "B")] [("B", 1)]).1.vector_clock =
      (mergeRemoteState (mergeRemoteState (initState "N")
        [] [("j", (2 : ℚ), "B")] [("B", 1)]).1 [("k", "x", (1 : ℚ), "A")] [] []).1.vector_clock :=
  c3_merge_commutative (initState "N") [("k", "x", (1 : ℚ), "A")] [] []
    [] [("j", (2 : ℚ), "B")] [("B", 1)]
    (by decide) (by decide) (by decide) (by decide) (by decide) (by decide)
    (fun k v1 p1 v2 p2 h1 h2 hpp => by simp [lookupKey] at h2)

theorem countDispatch_append (l1 l2 : List RAction) (addr : Addr) (seq : Nat) :
    countDispatch (l1 ++ l2) addr seq =
      countDispatch l1 addr seq + countDispatch l2 addr seq := by
  induction l1 with
  | nil => simp [countDispatch]
  | cons a t ih =>
    cases a with
    | sendAck a2 s2 => simp [countDispatch, ih]
    | dispatch a2 s2 pt => simp [countDispatch, ih, Nat.add_assoc]

theorem receiveStep_received_mono (handlers : Nat → Bool) (st : RecvState) (p : RPacket)
    (a2 : Addr) (addr : Addr) (seq : Nat) (h : st.received_seqs addr seq = true) :
    (receiveStep handlers st p a2).1.received_seqs addr seq = true := by
  unfold receiveStep
  by_cases hack : p.packet_type = PacketType.ACK
  · rw [if_pos hack]
    cases p.ack_field with
    | some a =>
      dsimp only
      by_cases hp : st.pending_acks a = true
      · rw [if_pos hp]
        exact h
      · rw [if_neg hp]
        exact h
    | none => exact h
  · rw [if_neg hack]
    by_cases hdup : st.received_seqs a2 p.seq_num = true
    · rw [if_pos hdup]
      exact h
    · rw [if_neg hdup]
      show (if addr = a2 ∧ seq = p.seq_num then true else st.received_seqs addr seq) = true
      split_ifs with hc
      · rfl
      · exact h

theorem receiveStep_count (handlers : Nat → Bool) (st : RecvState) (p : RPacket)
    (a2 : Addr) (addr : Addr) (seq : Nat) :
    countDispatch (receiveStep handlers st p a2).2 addr seq ≤ 1 ∧
    (st.received_seqs addr seq = true →
      countDispatch (receiveStep handlers st p a2).2 addr seq = 0) ∧
    (1 ≤ countDispatch (receiveStep handlers st p a2).2 addr seq →
      (receiveStep handlers st p a2).1.received_seqs addr seq = true) := by
  unfold receiveStep
  by_cases hack : p.packet_type = PacketType.ACK
  · rw [if_pos hack]
    cases p.ack_field with
    | some a =>
      dsimp only
      by_cases hp : st.pending_acks a = true
      · rw [if_pos hp]
        exact ⟨by simp [countDispatch], fun _ => rfl,
          fun hc => absurd hc (by simp [countDispatch])⟩
      · rw [if_neg hp]
        exact ⟨by simp [countDispatch], fun _ => rfl,
          fun hc => absurd hc (by simp [countDispatch])⟩
    | none =>
      exact ⟨by simp [countDispatch], fun _ => rfl,
        fun hc => absurd hc (by simp [countDispatch])⟩
  · rw [if_neg hack]
    by_cases hdup : st.received_seqs a2 p.seq_num = true
    · rw [if_pos hdup]
      exact ⟨by simp [countDispatch], fun _ => by simp [countDispatch],
        fun hc => absurd hc (by simp [countDispatch])⟩
    · rw [if_neg hdup]
      by_cases hh : handlers p.packet_type = true
      · rw [if_pos hh]
        by_cases hmatch : a2 = addr ∧ p.seq_num = seq
        · refine ⟨by simp [countDispatch, hmatch], ?_, ?_⟩
          · intro hrec
            refine absurd ?_ hdup
            rw [hmatch.1, hmatch.2]
            exact hrec
          · intro _
            show (if addr = a2 ∧ seq = p.seq_num then true else _) = true
            rw [if_pos ⟨hmatch.1.symm, hmatch.2.symm⟩]
        · exact ⟨by simp [countDispatch, hmatch], fun _ => by simp [countDispatch, hmatch],
            fun hc => absurd hc (by simp [countDispatch, hmatch])⟩
      · rw [if_neg hh]
        exact ⟨by simp [countDispatch], fun _ => by simp [countDispatch],
          fun hc => absurd hc (by simp [countDispatch])⟩

theorem traceAcc (handlers : Nat → Bool) :
    ∀ (t : List (RPacket × Addr)) (st : RecvState) (acc : List RAction),
      List.foldl (traceStep handlers) (st, acc) t =
        ((List.foldl (traceStep handlers) (st, []) t).1,
          acc ++ (List.foldl (traceStep handlers) (st, []) t).2) := by
  intro t
  induction t with
  | nil =>
    intro st acc
    simp
  | cons i t ih =>
    intro st acc
    rw [List.foldl_cons, List.foldl_cons]
    have h1 : traceStep handlers (st, acc) i =
        ((receiveStep handlers st i.1 i.2).1,
          acc ++ (receiveStep handlers st i.1 i.2).2) := rfl
    have h2 : traceStep handlers (st, []) i =
        ((receiveStep handlers st i.1 i.2).1, (receiveStep handlers st i.1 i.2).2) := by
      show ((receiveStep handlers st i.1 i.2).1, [] ++ (receiveStep handlers st i.1 i.2).2) = _
      rw [List.nil_append]
    rw [h1, h2, ih _ (acc ++ (receiveStep handlers st i.1 i.2).2),
      ih _ (receiveStep handlers st i.1 i.2).2, List.append_assoc]

theorem receiveTrace_aux (handlers : Nat → Bool) (addr : Addr) (seq : Nat) :
    ∀ (inps : List (RPacket × Addr)) (st : RecvState),
      (st.received_seqs addr seq = true →
        countDispatch (receiveTrace handlers st inps).2 addr seq = 0) ∧
      countDispatch (receiveTrace handlers st inps).2 addr seq ≤ 1 := by
  intro inps
  induction inps with
  | nil =>
    intro st
    exact ⟨fun _ => rfl, Nat.zero_le 1⟩
  | cons i t ih =>
    intro st
    have hT : receiveTrace handlers st (i :: t) =
        ((receiveTrace handlers (receiveStep handlers st i.1 i.2).1 t).1,
          (receiveStep handlers st i.1 i.2).2 ++
            (receiveTrace handlers (receiveStep handlers st i.1 i.2).1 t).2) := by
      unfold receiveTrace
      rw [List.foldl_cons]
      have h1 : traceStep handlers (st, []) i =
          ((receiveStep handlers st i.1 i.2).1, (receiveStep handlers st i.1 i.2).2) := by
        show ((receiveStep handlers st i.1 i.2).1, [] ++ (receiveStep handlers st i.1 i.2).2) = _
        rw [List.nil_append]
      rw [h1, traceAcc handlers t _ _]
    obtain ⟨hstep1, hstep2, hstep3⟩ := receiveStep_count handlers st i.1 i.2 addr seq
    obtain ⟨ih1, ih2⟩ := ih (receiveStep handlers st i.1 i.2).1
    constructor
    · intro hrec
      rw [hT, countDispatch_append, hstep2 hrec,
        ih1 (receiveStep_received_mono handlers st i.1 i.2 addr seq hrec)]
    · rw [hT, countDispatch_append]
      rcases Nat.eq_zero_or_pos (countDispatch (receiveStep handlers st i.1 i.2).2 addr seq)
        with hz | hpos
      · rw [hz]
        simpa using ih2
      · rw [ih1 (hstep3 hpos)]
        simpa using hstep1

/-- C6: on the receive path a valid non-ACK datagram whose (source, seq)
is already in the per-peer received set is re-ACKed, leaves the state
unchanged and is not dispatched; every reception of a non-ACK datagram
emits an ACK for its seq to its source; and over any inbound sequence the
handler is dispatched at most once per (source, seq). -/
theorem c6_duplicate_suppression :
    (∀ (handlers : Nat → Bool) (st : RecvState) (p : RPacket) (addr : Addr),
      p.packet_type ≠ PacketType.ACK → st.received_seqs addr p.seq_num = true →
      receiveStep handlers st p addr = (st, [RAction.sendAck addr p.seq_num])) ∧
    (∀ (handlers : Nat → Bool) (st : RecvState) (p : RPacket) (addr : Addr),
      p.packet_type ≠ PacketType.ACK →
      RAction.sendAck addr p.seq_num ∈ (receiveStep handlers st p addr).2) ∧
    (∀ (handlers : Nat → Bool) (st : RecvState) (inps : List (RPacket × Addr))
      (addr : Addr) (seq : Nat),
      countDispatch (receiveTrace handlers st inps).2 addr seq ≤ 1) := by
  refine ⟨?_, ?_, ?_⟩
  · intro handlers st p addr hna hrec
    unfold receiveStep
    rw [if_neg hna, if_pos hrec]
  · intro handlers st p addr hna
    unfold receiveStep
    rw [if_neg hna]
    by_cases hdup : st.received_seqs addr p.seq_num = true
    · rw [if_pos hdup]
      exact List.mem_singleton.2 rfl
    · rw [if_neg hdup]
      exact List.mem_cons_self _ _
  · intro handlers st inps addr seq
    exact (receiveTrace_aux handlers addr seq inps st).2

/-- Witness for C6 at a concrete duplicate datagram. -/
theorem c6_witness :
    receiveStep (fun _ => true) ⟨fun _ _ => true, fun _ => false⟩ ⟨0, 5, none⟩ ("h", 1) =
      (⟨fun _ _ => true, fun _ => false⟩, [RAction.sendAck ("h", 1) 5]) ∧
    RAction.sendAck ("h", 1) 5 ∈
      (receiveStep (fun _ => true) ⟨fun _ _ => false, fun _ => false⟩ ⟨0, 5, none⟩
        ("h", 1)).2 :=
  ⟨c6_duplicate_suppression.1 (fun _ => true) ⟨fun _ _ => true, fun _ => false⟩ ⟨0, 5, none⟩
      ("h", 1) (by decide) rfl,
    c6_duplicate_suppression.2.1 (fun _ => true) ⟨fun _ _ => false, fun _ => false⟩
      ⟨0, 5, none⟩ ("h", 1) (by decide)⟩

theorem lookupSeq_cons {β : Type} (k2 : Nat) (v : β) (t : List (Nat × β)) (k : Nat) :
    lookupSeq ((k2, v) :: t) k = if k2 = k then some v else lookupSeq t k :=
  rfl

theorem lookupSeq_not_mem {β : Type} {l : List (Nat × β)} {k : Nat}
    (h : k ∉ l.map Prod.fst) : lookupSeq l k = none := by
  induction l with
  | nil => rfl
  | cons e t ih =>
    obtain ⟨k2, v⟩ := e
    rw [List.map_cons, List.mem_cons, not_or] at h
    rw [lookupSeq_cons, if_neg (fun hh => h.1 hh.symm), ih h.2]

theorem seqsND_cons {β : Type} {e : Nat × β} {t : List (Nat × β)}
    (h : seqsND (e :: t)) : e.1 ∉ t.map Prod.fst ∧ seqsND t := by
  unfold seqsND at *
  rw [List.map_cons, List.nodup_cons] at h
  exact h

theorem seqsND_mem_unique {β : Type} :
    ∀ (l : List (Nat × β)), seqsND l → ∀ (e1 e2 : Nat × β),
      e1 ∈ l → e2 ∈ l → e1.1 = e2.1 → e1 = e2 := by
  intro l
  induction l with
  | nil =>
    intro _ e1 e2 h1 h2 hk
    cases h1
  | cons a t ih =>
    intro h e1 e2 h1 h2 hk
    obtain ⟨hnm, ht⟩ := seqsND_cons h
    rcases List.mem_cons.1 h1 with heq1 | h1
    · rcases List.mem_cons.1 h2 with heq2 | h2
      · rw [heq1, heq2]
      · exfalso
        have hmm2 : e2.1 ∈ List.map Prod.fst t := List.mem_map.2 ⟨e2, h2, rfl⟩
        rw [← hk, heq1] at hmm2
        exact hnm hmm2
    · rcases List.mem_cons.1 h2 with heq2 | h2
      · exfalso
        have hmm1 : e1.1 ∈ List.map Prod.fst t := List.mem_map.2 ⟨e1, h1, rfl⟩
        rw [hk, heq2] at hmm1
        exact hnm hmm1
      · exact ih ht e1 e2 h1 h2 hk

theorem lookupSeq_filter_none {β : Type} (pred : Nat × β → Bool) (l : List (Nat × β))
    (k : Nat) (h : k ∉ l.map Prod.fst) : lookupSeq (l.filter pred) k = none := by
  refine lookupSeq_not_mem (fun hc => h ?_)
  obtain ⟨e, he, hek⟩ := List.mem_map.1 hc
  exact List.mem_map.2 ⟨e, (List.mem_filter.1 he).1, hek⟩

theorem lookupSeq_filter {β : Type} (pred : Nat × β → Bool) :
    ∀ (l : List (Nat × β)), seqsND l → ∀ (k : Nat) (v : β), (k, v) ∈ l →
      lookupSeq (l.filter pred) k = (if pred (k, v) = true then some v else none) := by
  intro l
  induction l with
  | nil =>
    intro _ k v hm
    cases hm
  | cons a t ih =>
    intro h k v hm
    obtain ⟨hnm, ht⟩ := seqsND_cons h
    rcases List.mem_cons.1 hm with heq | hm2
    · rw [← heq] at hnm
      rw [← heq, List.filter_cons]
      by_cases hp : pred (k, v) = true
      · rw [if_pos hp, if_pos hp, lookupSeq_cons, if_pos rfl]
      · rw [if_neg hp, if_neg hp]
        exact lookupSeq_filter_none pred t k hnm
    · have hak : a.1 ≠ k := by
        intro hc
        exact hnm (hc ▸ List.mem_map.2 ⟨(k, v), hm2, rfl⟩)
      rw [List.filter_cons]
      by_cases hp : pred a = true
      · rw [if_pos hp]
        obtain ⟨ak, av⟩ := a
        rw [lookupSeq_cons, if_neg hak]
        exact ih ht k v hm2
      · rw [if_neg hp]
        exact ih ht k v hm2

theorem seqsND_filter {β : Type} (pred : Nat × β → Bool) (l : List (Nat × β))
    (h : seqsND l) : seqsND (l.filter pred) := by
  unfold seqsND at *
  exact List.Nodup.sublist (List.Sublist.map Prod.fst (List.filter_sublist l)) h

theorem lookupSeq_overwrite_ne {β : Type} (l : List (Nat × β)) (k2 k : Nat) (v : β)
    (h : k2 ≠ k) : lookupSeq (overwriteSeq l k2 v) k = lookupSeq l k := by
  induction l with
  | nil => rfl
  | cons a t ih =>
    obtain ⟨ak, av⟩ := a
    show lookupSeq ((if ak = k2 then (k2, v) else (ak, av)) :: overwriteSeq t k2 v) k = _
    by_cases hk : ak = k2
    · rw [if_pos hk, lookupSeq_cons, if_neg h, ih, lookupSeq_cons, if_neg (hk ▸ h)]
    · rw [if_neg hk, lookupSeq_cons, ih, lookupSeq_cons]

theorem lookupSeq_overwrite_self {β : Type} :
    ∀ (l : List (Nat × β)) (k : Nat) (v : β), (lookupSeq l k).isSome = true →
      lookupSeq (overwriteSeq l k v) k = some v := by
  intro l
  induction l with
  | nil =>
    intro k v h
    exact absurd h (by simp [lookupSeq])
  | cons a t ih =>
    intro k v h
    obtain ⟨ak, av⟩ := a
    show lookupSeq ((if ak = k then (k, v) else (ak, av)) :: overwriteSeq t k v) k = _
    by_cases hk : ak = k
    · rw [if_pos hk, lookupSeq_cons, if_pos rfl]
    · rw [lookupSeq_cons, if_neg hk] at h
      rw [if_neg hk, lookupSeq_cons, if_neg hk]
      exact ih k v h

theorem foldUpd_ne {P : Type} (now2 : ℚ) (seq : Nat) :
    ∀ (tr : List (Nat × P × ℚ × Nat × Addr)) (tab : Pend P),
      (∀ e ∈ tr, e.1 ≠ seq) →
      lookupSeq (tr.foldl (retryUpdStep now2) tab) seq = lookupSeq tab seq := by
  intro tr
  induction tr with
  | nil =>
    intro tab _
    rfl
  | cons e t ih =>
    intro tab h
    rw [List.foldl_cons, ih _ (fun e2 he2 => h e2 (List.mem_cons_of_mem _ he2))]
    unfold retryUpdStep
    split_ifs with hp
    · exact lookupSeq_overwrite_ne tab e.1 seq _ (h e (List.mem_cons_self _ _))
    · rfl

theorem foldUpd_hit {P : Type} (now2 : ℚ) (seq : Nat) (pkt : P) (t0 : ℚ) (r : Nat)
    (addr : Addr) :
    ∀ (tr : List (Nat × P × ℚ × Nat × Addr)) (tab : Pend P), seqsND tr →
      (seq, pkt, t0, r, addr) ∈ tr → (lookupSeq tab seq).isSome = true →
      lookupSeq (tr.foldl (retryUpdStep now2) tab) seq = some (pkt, now2, r + 1, addr) := by
  intro tr
  induction tr with
  | nil =>
    intro tab _ hm
    cases hm
  | cons e t ih =>
    intro tab hnd hm hpres
    obtain ⟨hnm, ht⟩ := seqsND_cons hnd
    rcases List.mem_cons.1 hm with heq | hm2
    · rw [← heq] at hnm
      rw [List.foldl_cons]
      have hstep : retryUpdStep now2 tab e = overwriteSeq tab seq (pkt, now2, r + 1, addr) := by
        rw [← heq]
        unfold retryUpdStep
        rw [if_pos hpres]
      rw [hstep, foldUpd_ne now2 seq t _
        (fun e2 he2 hc => hnm (hc ▸ List.mem_map.2 ⟨e2, he2, rfl⟩))]
      exact lookupSeq_overwrite_self tab seq _ hpres
    · have hne : e.1 ≠ seq := by
        intro hc
        exact hnm (hc ▸ List.mem_map.2 ⟨(seq, pkt, t0, r, addr), hm2, rfl⟩)
      rw [List.foldl_cons]
      have hlk : lookupSeq (retryUpdStep now2 tab e) seq = lookupSeq tab seq := by
        unfold retryUpdStep
        split_ifs with hp
        · exact lookupSeq_overwrite_ne tab e.1 seq _ hne
        · rfl
      refine ih _ ht hm2 ?_
      rw [hlk]
      exact hpres

/-- C7: in one retransmission pass an in-flight entry is acted on only
when now minus its send time exceeds min(INITIAL_TIMEOUT * 2^retries,
MAX_TIMEOUT); a timed-out entry with retries >= MAX_RETRIES is deleted
and not resent, and a timed-out entry below MAX_RETRIES is resent (same
packet, same seq) and rewritten with retries+1 and the new send time. -/
theorem c7_retry_policy {P : Type} (now now2 : ℚ) (pending : Pend P) (hnd : seqsND pending)
    (seq : Nat) (pkt : P) (t0 : ℚ) (r : Nat) (addr : Addr)
    (hmem : (seq, pkt, t0, r, addr) ∈ pending) :
    (¬(now - t0 > timeoutFor r) →
      lookupSeq (retryPass now now2 pending).1 seq = some (pkt, t0, r, addr) ∧
      ∀ e ∈ (retryPass now now2 pending).2, e.1 ≠ seq) ∧
    (now - t0 > timeoutFor r → MAX_RETRIES ≤ r →
      lookupSeq (retryPass now now2 pending).1 seq = none ∧
      ∀ e ∈ (retryPass now now2 pending).2, e.1 ≠ seq) ∧
    (now - t0 > timeoutFor r → r < MAX_RETRIES →
      lookupSeq (retryPass now now2 pending).1 seq = some (pkt, now2, r + 1, addr) ∧
      (seq, pkt, addr) ∈ (retryPass now now2 pending).2) := by
  have hmemK : seq ∈ pending.map Prod.fst := List.mem_map.2 ⟨_, hmem, rfl⟩
  have hnotinretry : ∀ (hn : ¬(now - t0 > timeoutFor r ∧ r < MAX_RETRIES)),
      ∀ e ∈ (retryPass now now2 pending).2, e.1 ≠ seq := by
    intro hn e he hc
    obtain ⟨e0, he0, heq⟩ := List.mem_map.1 he
    have he0p := (List.mem_filter.1 he0).1
    have he0c := of_decide_eq_true (List.mem_filter.1 he0).2
    have hkey : e0.1 = seq := by
      rw [← hc, ← heq]
    have : e0 = (seq, pkt, t0, r, addr) := seqsND_mem_unique pending hnd _ _ he0p hmem hkey
    rw [this] at he0c
    exact hn he0c
  have hretrykeys : ∀ (hn : ¬(now - t0 > timeoutFor r ∧ r < MAX_RETRIES)),
      ∀ e ∈ pending.filter (fun e =>
        decide (now - e.2.2.1 > timeoutFor e.2.2.2.1 ∧ e.2.2.2.1 < MAX_RETRIES)), e.1 ≠ seq := by
    intro hn e he hc
    have hep := (List.mem_filter.1 he).1
    have hec := of_decide_eq_true (List.mem_filter.1 he).2
    have : e = (seq, pkt, t0, r, addr) := seqsND_mem_unique pending hnd _ _ hep hmem hc
    rw [this] at hec
    exact hn hec
  refine ⟨?_, ?_, ?_⟩
  · intro hdue
    have hn : ¬(now - t0 > timeoutFor r ∧ r < MAX_RETRIES) := fun hc => hdue hc.1
    constructor
    · show lookupSeq (List.foldl (retryUpdStep now2) _ _) seq = _
      rw [foldUpd_ne now2 seq _ _ (hretrykeys hn),
        lookupSeq_filter _ pending hnd seq (pkt, t0, r, addr) hmem]
      rw [if_pos]
      simp only [Bool.not_eq_true']
      refine decide_eq_false ?_
      intro hc
      exact hdue hc.1
    · exact hnotinretry hn
  · intro hdue hmax
    have hn : ¬(now - t0 > timeoutFor r ∧ r < MAX_RETRIES) :=
      fun hc => absurd hmax (not_le.2 hc.2)
    constructor
    · show lookupSeq (List.foldl (retryUpdStep now2) _ _) seq = _
      rw [foldUpd_ne now2 seq _ _ (hretrykeys hn),
        lookupSeq_filter _ pending hnd seq (pkt, t0, r, addr) hmem]
      rw [if_neg]
      simp only [Bool.not_eq_true', Bool.not_eq_false]
      exact decide_eq_true ⟨hdue, hmax⟩
    · exact hnotinretry hn
  · intro hdue hlt
    have hsurv : lookupSeq (pending.filter (fun e =>
        ! decide (now - e.2.2.1 > timeoutFor e.2.2.2.1 ∧ MAX_RETRIES ≤ e.2.2.2.1))) seq =
        some (pkt, t0, r, addr) := by
      rw [lookupSeq_filter _ pending hnd seq (pkt, t0, r, addr) hmem, if_pos]
      simp only [Bool.not_eq_true']
      refine decide_eq_false ?_
      intro hc
      exact absurd hc.2 (not_le.2 hlt)
    have hinretry : (seq, pkt, t0, r, addr) ∈ pending.filter (fun e =>
        decide (now - e.2.2.1 > timeoutFor e.2.2.2.1 ∧ e.2.2.2.1 < MAX_RETRIES)) :=
      List.mem_filter.2 ⟨hmem, decide_eq_true ⟨hdue, hlt⟩⟩
    constructor
    · show lookupSeq (List.foldl (retryUpdStep now2) _ _) seq = _
      refine foldUpd_hit now2 seq pkt t0 r addr _ _ (seqsND_filter _ pending hnd) hinretry ?_
      rw [hsurv]
      rfl
    · exact List.mem_map.2 ⟨(seq, pkt, t0, r, addr), hinretry, rfl⟩

/-- Witness for C7: a timed-out entry below MAX_RETRIES is resent and
rewritten. -/
theorem c7_witness :
    lookupSeq (retryPass 10 11 [(3, 7, 0, 1, ("h", 9))] : Pend Nat × _).1 3 =
      some (7, 11, 2, ("h", 9)) ∧
    (3, 7, ("h", 9)) ∈ (retryPass 10 11 [(3, (7 : Nat), 0, 1, ("h", 9))]).2 :=
  (c7_retry_policy 10 11 [(3, 7, 0, 1, ("h", 9))] (by decide) 3 7 0 1 ("h", 9)
    (List.mem_singleton.2 rfl)).2.2
    (by norm_num [timeoutFor, INITIAL_TIMEOUT, MAX_TIMEOUT]) (by decide)

theorem fromBE4_u32be (n : Nat) (h : n < 4294967296) :
    fromBE4 (n / 16777216 % 256) (n / 65536 % 256) (n / 256 % 256) (n % 256) = n := by
  unfold fromBE4
  omega

/-- C8: for a packet whose JSON payload fits in MAX_PAYLOAD_SIZE and
round-trips through the JSON codec, whose seq fits 32 bits and type one
byte (and whose checksum is a 32-bit value, as the truncated-MD5 digest
always is), deserialize of serialize recovers the packet's type, seq and
payload. -/
theorem c8_roundtrip {α : Type} (checksum : List Nat → Nat) (jsonDumps : α → List Nat)
    (jsonLoads : List Nat → Option α) (p : SPacket α)
    (hjson : jsonLoads (jsonDumps p.payload) = some p.payload)
    (hlen : (jsonDumps p.payload).length ≤ MAX_PAYLOAD_SIZE)
    (hseq : p.seq_num < 4294967296)
    (hchk : checksum (jsonDumps p.payload) < 4294967296)
    ( _htype : p.packet_type < 256) :
    deserialize checksum jsonLoads (serialize checksum jsonDumps p) =
      some ⟨p.packet_type, p.seq_num, p.payload⟩ := by
  have hser : serialize checksum jsonDumps p =
      WIRE_VERSION :: p.packet_type ::
        (u32be p.seq_num ++ u32be (checksum (jsonDumps p.payload)) ++ jsonDumps p.payload) := by
    simp only [serialize]
    rw [if_neg (not_lt.2 hlen)]
  rw [hser]
  unfold u32be
  simp only [List.cons_append, List.nil_append]
  unfold deserialize
  rw [if_neg (by simp only [List.length_cons, HEADER_SIZE]; omega)]
  dsimp only
  rw [if_neg (fun hc => hc rfl)]
  rw [fromBE4_u32be (checksum (jsonDumps p.payload)) hchk]
  rw [if_neg (fun hc => hc rfl)]
  rw [hjson]
  rw [fromBE4_u32be p.seq_num hseq]

/-- Witness for C8 at a concrete packet and codec. -/
theorem c8_witness :
    deserialize (fun _ => 0) (fun _ => some 0)
        (serialize (fun _ => 0) (fun _ => []) (⟨0, 0, 0⟩ : SPacket Nat)) =
      some ⟨0, 0, 0⟩ :=
  c8_roundtrip (fun _ => 0) (fun _ => []) (fun _ => some 0) ⟨0, 0, 0⟩ rfl
    (by decide) (by decide) (by decide) (by decide)

/-- Deserialize of a well-formed version-1 header whose checksum field
matches the checksum of the remaining bytes reaches the JSON stage. -/
theorem deserialize_header {α : Type} (checksum : List Nat → Nat)
    (jsonLoads : List Nat → Option α) (t s1 s2 s3 s4 c1 c2 c3 c4 : Nat) (rest : List Nat)
    (hchk : fromBE4 c1 c2 c3 c4 = checksum rest) :
    deserialize checksum jsonLoads
        (1 :: t :: s1 :: s2 :: s3 :: s4 :: c1 :: c2 :: c3 :: c4 :: rest) =
      match jsonLoads rest with
      | some payload => some ⟨t, fromBE4 s1 s2 s3 s4, payload⟩
      | none => none := by
  unfold deserialize
  rw [if_neg (by simp only [List.length_cons, HEADER_SIZE]; omega)]
  dsimp only
  rw [if_neg (fun hc => hc rfl)]
  rw [if_neg (fun hc => hc hchk.symm)]

/-- C9 is refuted on the code: serialize computes the checksum over the
already-truncated payload, so for an oversized payload the receiver's
checksum verification passes, and with a JSON decoder that accepts the
truncated bytes deserialize returns the packet rather than none -- the
claimed drop at the checksum comparison does not exist. -/
theorem c9_counterexample :
    MAX_PAYLOAD_SIZE < (c9dumps 0).length ∧
    deserialize c9sum (fun _ => some 0) (serialize c9sum c9dumps (⟨0, 0, 0⟩ : SPacket Nat)) =
      some ⟨0, 0, 0⟩ := by
  have hmin : min MAX_PAYLOAD_SIZE 65498 = 65497 := by
    norm_num [MAX_PAYLOAD_SIZE, HEADER_SIZE]
  have htake : (c9dumps 0).take MAX_PAYLOAD_SIZE = List.replicate 65497 97 := by
    show (List.replicate 65498 97).take MAX_PAYLOAD_SIZE = List.replicate 65497 97
    rw [List.take_replicate, hmin]
  have hlen : MAX_PAYLOAD_SIZE < (c9dumps 0).length := by
    show MAX_PAYLOAD_SIZE < (List.replicate 65498 97).length
    rw [List.length_replicate]
    norm_num [MAX_PAYLOAD_SIZE, HEADER_SIZE]
  refine ⟨hlen, ?_⟩
  have hsum : c9sum (List.replicate 65497 97) = 65497 := by
    show (List.replicate 65497 97).length = 65497
    rw [List.length_replicate]
  have hser : serialize c9sum c9dumps (⟨0, 0, 0⟩ : SPacket Nat) =
      1 :: 0 :: (u32be 0 ++ u32be 65497 ++ List.replicate 65497 97) := by
    simp only [serialize]
    rw [if_pos hlen, htake, hsum]
    rfl
  rw [hser]
  unfold u32be
  simp only [List.cons_append, List.nil_append]
  rw [deserialize_header c9sum (fun _ => some 0)]
  · norm_num [fromBE4]
  · rw [hsum]
    norm_num [fromBE4]

/-- C9 (amended): an oversized payload is truncated to MAX_PAYLOAD_SIZE
at send time and the checksum is computed over the truncated bytes, so
the receiver's checksum verification succeeds; the datagram is then
accepted or dropped solely according to whether JSON decoding of the
truncated payload succeeds. -/
theorem c9_truncation_amended {α : Type} (checksum : List Nat → Nat)
    (jsonDumps : α → List Nat) (jsonLoads : List Nat → Option α) (p : SPacket α)
    (hlen : MAX_PAYLOAD_SIZE < (jsonDumps p.payload).length)
    (hseq : p.seq_num < 4294967296)
    (hchk : checksum ((jsonDumps p.payload).take MAX_PAYLOAD_SIZE) < 4294967296) :
    serialize checksum jsonDumps p =
      WIRE_VERSION :: p.packet_type ::
        (u32be p.seq_num ++
          u32be (checksum ((jsonDumps p.payload).take MAX_PAYLOAD_SIZE)) ++
          (jsonDumps p.payload).take MAX_PAYLOAD_SIZE) ∧
    deserialize checksum jsonLoads (serialize checksum jsonDumps p) =
      (match jsonLoads ((jsonDumps p.payload).take MAX_PAYLOAD_SIZE) with
       | some payload => some ⟨p.packet_type, p.seq_num, payload⟩
       | none => none) := by
  have hser : serialize checksum jsonDumps p =
      WIRE_VERSION :: p.packet_type ::
        (u32be p.seq_num ++
          u32be (checksum ((jsonDumps p.payload).take MAX_PAYLOAD_SIZE)) ++
          (jsonDumps p.payload).take MAX_PAYLOAD_SIZE) := by
    simp only [serialize]
    rw [if_pos hlen]
  refine ⟨hser, ?_⟩
  rw [hser]
  unfold u32be
  simp only [List.cons_append, List.nil_append]
  unfold deserialize
  rw [if_neg (by simp only [List.length_cons, HEADER_SIZE]; omega)]
  dsimp only
  rw [if_neg (fun hc => hc rfl)]
  rw [fromBE4_u32be (checksum ((jsonDumps p.payload).take MAX_PAYLOAD_SIZE)) hchk]
  rw [if_neg (fun hc => hc rfl)]
  cases hj : jsonLoads ((jsonDumps p.payload).take MAX_PAYLOAD_SIZE) with
  | some pl => rw [fromBE4_u32be p.seq_num hseq]
  | none => rfl

/-- Witness for the amended C9: with a strict decoder the truncated
datagram is dropped at the JSON stage. -/
theorem c9_witness :
    serialize c9sum c9dumps (⟨0, 0, 0⟩ : SPacket Nat) =
      WIRE_VERSION :: 0 ::
        (u32be 0 ++ u32be (c9sum ((c9dumps 0).take MAX_PAYLOAD_SIZE)) ++
          (c9dumps 0).take MAX_PAYLOAD_SIZE) ∧
    deserialize c9sum (fun _ => (none : Option Nat))
        (serialize c9sum c9dumps (⟨0, 0, 0⟩ : SPacket Nat)) =
      (match (fun _ => (none : Option Nat)) ((c9dumps 0).take MAX_PAYLOAD_SIZE) with
       | some payload => some ⟨0, 0, payload⟩
       | none => none) :=
  c9_truncation_amended c9sum c9dumps (fun _ => none) ⟨0, 0, 0⟩
    (by show MAX_PAYLOAD_SIZE < (List.replicate 65498 97).length
        rw [List.length_replicate]
        norm_num [MAX_PAYLOAD_SIZE, HEADER_SIZE])
    (by decide)
    (by show ((List.replicate 65498 97).take MAX_PAYLOAD_SIZE).length < 4294967296
        rw [List.length_take, List.length_replicate]
        norm_num [MAX_PAYLOAD_SIZE, HEADER_SIZE])

end MeshSync
